import Mathlib

/-!
# Endgame base machinery of Bertini 2 (`base_endgame.hpp`)

A shallow embedding of `HermiteInterpolateAndSolve`, of
`EndgameBase::ComputeInitialSamples` and of the state of `EndgameBase` with its accessors,
with the properties proved about them.

Modelling conventions.

* The complex scalar type `CT` is a field `K`; arithmetic is exact.
* `Vec<CT>` is a `K`-module `V`: all vectors have one fixed dimension, so
  Eigen's run-time size checks are outside the model.
* `std::deque<T>` is `List T`; indexing past the end is the failure
  `Failure.outOfRange` (undefined behaviour in C++).
* `unsigned int` arithmetic is arithmetic on `Nat` reduced modulo `2 ^ 32`.
* The Eigen containers `Mat< Vec<CT> >` and `Vec<CT>` that the interpolation
  routine allocates are modelled with cells that are `none` until assigned;
  reading such a cell is the failure `Failure.uninitialised`.
* `assert` is modelled as enabled: a false condition is `Failure.assertion`.
* The tracker, the status enumeration and the configuration bundle are declared in
  other headers; they are modelled from their contract. The configured number of
  sample points is a natural number, and the loop counter `int ii` of
  `ComputeInitialSamples` is taken not to overflow.
* `ComputeInitialSamples` carries a record of the tracker calls it makes, so that
  statements about the number and the order of the calls can be made.
* In the state of `EndgameBase` the two vectors of `final_approximation_at_origin_` are
  lists of coefficients (empty when default-constructed), and `cycle_number_` is an
  `unsigned int`.
-/

namespace Bertini

/-! ## Failures and machine arithmetic -/

/-- The ways in which a call can end without returning a value. -/
inductive Failure where
  /-- An `assert` of the routine fired. -/
  | assertion
  /-- A container was indexed outside its bounds. -/
  | outOfRange
  /-- A cell of a freshly allocated matrix or vector was read before being assigned. -/
  | uninitialised
  deriving DecidableEq, Repr

/-- The modulus of `unsigned int` arithmetic. -/
def UINT_RANGE : Nat := 4294967296

/-- Unsigned 32-bit multiplication. -/
def umul (a b : Nat) : Nat := (a * b) % UINT_RANGE

/-- Unsigned 32-bit addition. -/
def uadd (a b : Nat) : Nat := (a + b) % UINT_RANGE

/-- Unsigned 32-bit subtraction (wraps around below zero). -/
def usub (a b : Nat) : Nat := (a % UINT_RANGE + UINT_RANGE - b % UINT_RANGE) % UINT_RANGE

/-- The `operator[]` of `std::deque`, made fallible. -/
def index {α : Type} (xs : List α) (i : Nat) : Except Failure α :=
  match xs[i]? with
  | some a => .ok a
  | none => .error .outOfRange

/-! ## Eigen containers with cells that start unassigned -/

/-- A dynamically sized Eigen matrix whose coefficients are unassigned after construction. -/
structure Mat (α : Type) where
  rows : Nat
  cols : Nat
  cell : Nat → Nat → Option α

namespace Mat

variable {α : Type}

/-- The constructor `Mat<T>(rows, cols)`: no coefficient is assigned. -/
def create (rows cols : Nat) : Mat α := ⟨rows, cols, fun _ _ => none⟩

/-- Reading the coefficient `m(i, j)`. -/
def read (m : Mat α) (i j : Nat) : Except Failure α :=
  if i < m.rows ∧ j < m.cols then
    match m.cell i j with
    | some v => .ok v
    | none => .error .uninitialised
  else .error .outOfRange

/-- The matrix `m` with the cell `(i, j)` holding `v`. -/
def assign (m : Mat α) (i j : Nat) (v : α) : Mat α :=
  { m with cell := fun a b => if a = i ∧ b = j then some v else m.cell a b }

/-- The assignment `m(i, j) = v`. -/
def write (m : Mat α) (i j : Nat) (v : α) : Except Failure (Mat α) :=
  if i < m.rows ∧ j < m.cols then .ok (m.assign i j v) else .error .outOfRange

end Mat

/-! ## `HermiteInterpolateAndSolve` -/

section Hermite

variable {K V : Type} [Field K] [AddCommGroup V] [Module K V]

/-- The two local containers of `HermiteInterpolateAndSolve`:
`space_differences` (a matrix of vectors) and `time_differences`
(a column vector of scalars, stored as a one-column matrix). -/
structure Tables (K V : Type) where
  space_differences : Mat V
  time_differences : Mat K

/-- Body of the seeding loop (source lines 95 to 99) for one `ii`. -/
def seedStep (times : List K) (samples derivatives : List V) (st : Tables K V) (ii : Nat) :
    Except Failure (Tables K V) := do
  let s ← index samples ii
  let F ← st.space_differences.write (umul 2 ii) 0 s
  let s ← index samples ii
  let F ← F.write (uadd (umul 2 ii) 1) 0 s
  let d ← index derivatives ii
  let F ← F.write (uadd (umul 2 ii) 1) 1 d
  let t ← index times ii
  let z ← st.time_differences.write (umul 2 ii) 0 t
  let t ← index times ii
  let z ← z.write (uadd (umul 2 ii) 1) 0 t
  pure ⟨F, z⟩

/-- Body of the first-order difference loop (source line 105) for one `ii`. -/
def firstOrderStep (st : Tables K V) (ii : Nat) : Except Failure (Tables K V) := do
  let za ← st.time_differences.read (umul 2 ii) 0
  let zb ← st.time_differences.read (usub (umul 2 ii) 1) 0
  let fa ← st.space_differences.read (umul 2 ii) 0
  let fb ← st.space_differences.read (usub (umul 2 ii) 1) 0
  let F ← st.space_differences.write (umul 2 ii) 1 ((1 / (za - zb)) • (fa - fb))
  pure { st with space_differences := F }

/-- Body of the inner higher-order difference loop (source line 114) for one `ii`, `jj`. -/
def higherOrderStep (ii : Nat) (st : Tables K V) (jj : Nat) : Except Failure (Tables K V) := do
  let za ← st.time_differences.read ii 0
  let zb ← st.time_differences.read (usub ii jj) 0
  let fa ← st.space_differences.read ii (usub jj 1)
  let fb ← st.space_differences.read (usub ii 1) (usub jj 1)
  let F ← st.space_differences.write ii jj ((1 / (za - zb)) • (fa - fb))
  pure { st with space_differences := F }

/-- The table construction (source lines 90 to 116): allocation and the three loops. -/
def fillTables (num_sample_points : Nat) (times : List K) (samples derivatives : List V) :
    Except Failure (Tables K V) := do
  let size := umul 2 num_sample_points
  let st : Tables K V := ⟨Mat.create size size, Mat.create size 1⟩
  let st ← (List.range num_sample_points).foldlM (seedStep times samples derivatives) st
  let st ← (List.range' 1 (num_sample_points - 1)).foldlM firstOrderStep st
  (List.range' 2 (size - 2)).foldlM
    (fun st ii => (List.range' 2 (ii - 1)).foldlM (higherOrderStep ii) st) st

/-- Body of the `while (ii >= 1)` loop (source line 125) for one `ii`. -/
def hornerStep (target_time : K) (st : Tables K V) (ii : Nat) (Result : V) : Except Failure V := do
  let za ← st.time_differences.read ii 0
  let fa ← st.space_differences.read (umul 2 ii) (umul 2 ii)
  let zb ← st.time_differences.read (usub ii 1) 0
  let fb ← st.space_differences.read (usub (umul 2 ii) 1) (usub (umul 2 ii) 1)
  pure ((target_time - zb) • ((target_time - za) • Result + fa) + fb)

/-- The loop `while (ii >= 1) { ...; ii--; }` (source lines 123 to 127), by recursion on `ii`. -/
def hornerLoop (target_time : K) (st : Tables K V) : Nat → V → Except Failure V
  | 0, Result => pure Result
  | ii + 1, Result => do
    let Result ← hornerStep target_time st (ii + 1) Result
    hornerLoop target_time st ii Result

/-- The evaluation of the interpolant (source lines 118 to 131). -/
def evaluate (target_time : K) (num_sample_points : Nat) (st : Tables K V) : Except Failure V := do
  let ii := usub num_sample_points 1
  let Result ← st.space_differences.read
    (usub (umul 2 num_sample_points) 1) (usub (umul 2 num_sample_points) 1)
  let Result ← hornerLoop target_time st ii Result
  let z0 ← st.time_differences.read 0 0
  let f0 ← st.space_differences.read 0 0
  pure ((target_time - z0) • Result + f0)

/-- The function `HermiteInterpolateAndSolve` (source lines 84 to 132). -/
def HermiteInterpolateAndSolve (target_time : K) (num_sample_points : Nat) (times : List K)
    (samples derivatives : List V) : Except Failure V := do
  if ¬ (times.length ≥ num_sample_points) then throw Failure.assertion
  if ¬ (samples.length ≥ num_sample_points) then throw Failure.assertion
  let st ← fillTables num_sample_points times samples derivatives
  evaluate target_time num_sample_points st

end Hermite

/-! ## Contents of the tables, as pure functions -/

section Values

variable {K V : Type} [Field K] [AddCommGroup V] [Module K V]

/-- The entry `k` of the duplicated time vector: `z[2i] = z[2i+1] = times[i]`. -/
def zAt (times : List K) (k : Nat) : K := times.getD (k / 2) 0

/-- The value that the table construction assigns to row `i` of column `j`,
by recursion on the column. -/
def ddAt (times : List K) (samples derivatives : List V) : Nat → Nat → V
  | 0, i => samples.getD (i / 2) 0
  | 1, i =>
    if i % 2 = 1 then derivatives.getD (i / 2) 0
    else (1 / (zAt times i - zAt times (i - 1))) •
      (samples.getD (i / 2) 0 - samples.getD ((i - 1) / 2) 0)
  | j + 2, i =>
    (1 / (zAt times i - zAt times (i - (j + 2)))) •
      (ddAt times samples derivatives (j + 1) i - ddAt times samples derivatives (j + 1) (i - 1))

/-- The value accumulated by the `while` loop started at `ii` with `Result`. -/
def hornerAt (times : List K) (samples derivatives : List V) (target_time : K) : Nat → V → V
  | 0, Result => Result
  | ii + 1, Result =>
    hornerAt times samples derivatives target_time ii
      ((target_time - zAt times ii) •
          ((target_time - zAt times (ii + 1)) • Result
            + ddAt times samples derivatives (2 * (ii + 1)) (2 * (ii + 1)))
        + ddAt times samples derivatives (2 * ii + 1) (2 * ii + 1))

/-- The value returned by `HermiteInterpolateAndSolve` on inputs of sufficient length. -/
def hermiteValue (target_time : K) (num_sample_points : Nat) (times : List K)
    (samples derivatives : List V) : V :=
  (target_time - zAt times 0) •
      hornerAt times samples derivatives target_time (num_sample_points - 1)
        (ddAt times samples derivatives (2 * num_sample_points - 1) (2 * num_sample_points - 1))
    + ddAt times samples derivatives 0 0

end Values

/-! ## Which cells are assigned at each stage of the table construction -/

/-- The matrix `m` has the shape `r × c`, its assigned cells are exactly those in `W`,
and an assigned cell `(a, b)` holds `val a b`. -/
def Mat.Holds {α : Type} (m : Mat α) (r c : Nat) (W : Nat → Nat → Prop) (val : Nat → Nat → α) : Prop :=
  m.rows = r ∧ m.cols = c ∧
    ∀ a b, (W a b → m.cell a b = some (val a b)) ∧ (¬ W a b → m.cell a b = none)

/-- Cells of `space_differences` assigned after `k` rounds of the seeding loop. -/
def seeded (k : Nat) (a b : Nat) : Prop := a < 2 * k ∧ (b = 0 ∨ (b = 1 ∧ a % 2 = 1))

/-- Entries of `time_differences` assigned after `k` rounds of the seeding loop. -/
def timed (k : Nat) (a b : Nat) : Prop := a < 2 * k ∧ b = 0

/-- Cells of `space_differences` assigned after the first-order loop has handled the
even rows below `2 * k`. -/
def firstOrder (n k : Nat) (a b : Nat) : Prop :=
  a < 2 * n ∧ (b = 0 ∨ (b = 1 ∧ (a % 2 = 1 ∨ (2 ≤ a ∧ a < 2 * k))))

/-- Cells of `space_differences` assigned when the higher-order loop is about to
handle row `ii`, column `jj`. -/
def higherOrder (n ii jj : Nat) (a b : Nat) : Prop :=
  a < 2 * n ∧ (b = 0 ∨ (b = 1 ∧ 1 ≤ a) ∨ (2 ≤ b ∧ b ≤ a ∧ (a < ii ∨ (a = ii ∧ b < jj))))

/-- Cells of `space_differences` assigned when the construction is over:
the lower triangle, diagonal included. -/
def assigned (n : Nat) (a b : Nat) : Prop := a < 2 * n ∧ b ≤ a

/-! ## The Newton form of the interpolant, in the words of the specification -/

section Newton

variable {K V : Type} [Field K] [AddCommGroup V] [Module K V]

/-- The diagonal entry `table[k][k]` of the filled table. -/
def diagonal (st : Tables K V) (k : Nat) : V := (st.space_differences.cell k k).getD 0

/-- The entry `z[k]` of the filled time vector. -/
def node (st : Tables K V) (k : Nat) : K := (st.time_differences.cell k 0).getD 0

/-- The Newton form as the specification words it: the sum over `k` from `0` to `2n - 1` of
`table[k][k]` times the product over `j < k` of `target_time - z[j]`. -/
def newtonForm (target_time : K) (n : Nat) (st : Tables K V) : V :=
  ((List.range (2 * n)).map fun k =>
    ((List.range k).map fun j => target_time - node st j).prod • diagonal st k).sum

/-- The fold of the specification's Horner scheme over the indices below `k`, from the
highest down: `R := R * (target_time - z[k]) + table[k][k]`. -/
def hornerFold (target_time : K) (st : Tables K V) : Nat → V → V
  | 0, R => R
  | k + 1, R => hornerFold target_time st k ((target_time - node st k) • R + diagonal st k)

/-- The Horner scheme as the specification words it: start from `table[2n-1][2n-1]` and fold
in the indices `2n - 2` down to `0`. -/
def hornerForm (target_time : K) (n : Nat) (st : Tables K V) : V :=
  hornerFold target_time st (2 * n - 1) (diagonal st (2 * n - 1))

end Newton

/-! ## `EndgameBase::ComputeInitialSamples` -/

/-- Modelled from the spec: the status returned by the tracker, the enumeration
`SuccessCode`, which is declared outside the files at hand. The code only tells `Success`
from the other values; these are kept apart by a number. -/
inductive SuccessCode where
  | Success
  | Other (code : Nat)
  deriving DecidableEq, Repr

/-- Modelled from the spec: the endgame configuration bundle `config::Endgame`, declared
outside the files at hand, with the two fields the code reads: the number of sample points
and the real sample factor. -/
structure config.Endgame (R : Type) where
  num_sample_points : Nat
  sample_factor : R

/-- Modelled from the spec: the tracker contract,
`TrackPath(out_point, from_time, to_time, from_point) -> status`. The tracker has an
internal state; a call takes that state, the current content of the output argument and the
three inputs, and gives the status, the new content of the output argument and the new
internal state. -/
structure Tracker (σ K P : Type) where
  state : σ
  TrackPath : σ → P → K → K → P → SuccessCode × P × σ

/-- The record of one call of `TrackPath`: its three inputs, the status it returned and the
point it left in the output argument. -/
structure Invocation (K P : Type) where
  start_time : K
  end_time : K
  start_point : P
  status : SuccessCode
  solution : P

/-- The data `ComputeInitialSamples` works on: the two output sequences, the tracker, and
the record of the tracker calls made so far, in order. -/
structure SampleState (σ K P : Type) where
  times : List K
  samples : List P
  tracker_ : Tracker σ K P
  calls : List (Invocation K P)

/-- The member `resize` of `std::deque`: entries beyond `n` are dropped, missing entries
are value-initialised. -/
def resize {α : Type} (xs : List α) (n : Nat) (d : α) : List α :=
  xs.take n ++ List.replicate (n - xs.length) d

/-- The assignment `xs[i] = v` on a `std::deque`, made fallible. -/
def assignAt {α : Type} (xs : List α) (i : Nat) (v : α) : Except Failure (List α) :=
  if i < xs.length then .ok (xs.set i v) else .error .outOfRange

section Bootstrap

variable {σ R K P : Type} [Field R] [Field K] [Algebra R K]

/-- Body of the sampling loop (source lines 273 and 274) for one `ii`: the next time, and
the call of the tracker. -/
def sampleStep (endgame_settings_ : config.Endgame R) (st : SampleState σ K P) (ii : Nat) :
    Except Failure (SuccessCode × SampleState σ K P) := do
  let previous ← index st.times (ii - 1)
  let times ← assignAt st.times ii (previous * algebraMap R K endgame_settings_.sample_factor)
  let out ← index st.samples ii
  let start_time ← index times (ii - 1)
  let end_time ← index times ii
  let start_point ← index st.samples (ii - 1)
  let (tracking_success, solution, state) :=
    st.tracker_.TrackPath st.tracker_.state out start_time end_time start_point
  let samples ← assignAt st.samples ii solution
  pure (tracking_success,
    { times := times
      samples := samples
      tracker_ := { st.tracker_ with state := state }
      calls := st.calls ++ [⟨start_time, end_time, start_point, tracking_success, solution⟩] })

/-- The sampling loop (source lines 271 to 278) over the remaining values of `ii`, with its
early `return`. -/
def sampleLoop (endgame_settings_ : config.Endgame R) :
    List Nat → SampleState σ K P → Except Failure (SuccessCode × SampleState σ K P)
  | [], st => pure (SuccessCode.Success, st)
  | ii :: rest, st => do
    let (tracking_success, st) ← sampleStep endgame_settings_ st ii
    if tracking_success ≠ SuccessCode.Success then pure (tracking_success, st)
    else sampleLoop endgame_settings_ rest st

/-- The member function `EndgameBase::ComputeInitialSamples` (source lines 262 to 279).
The arguments `times` and `samples` are the contents of the two deques on entry. -/
def ComputeInitialSamples [Inhabited P] (endgame_settings_ : config.Endgame R)
    (tracker_ : Tracker σ K P) (start_time : K) (x_endgame : P) (times : List K) (samples : List P) :
    Except Failure (SuccessCode × SampleState σ K P) := do
  let samples := resize samples endgame_settings_.num_sample_points default
  let times := resize times endgame_settings_.num_sample_points 0
  let samples ← assignAt samples 0 x_endgame
  let times ← assignAt times 0 start_time
  sampleLoop endgame_settings_ (List.range' 1 (endgame_settings_.num_sample_points - 1))
    ⟨times, samples, tracker_, []⟩

end Bootstrap

/-- A stub tracker for concrete runs: its state counts the calls made, the call number
`failAt` returns a non-success status and every other call returns `Success`; the point it
writes is the start point plus one. -/
def stubTracker (K : Type) (failAt : Nat) : Tracker Nat K Nat where
  state := 0
  TrackPath := fun count _ _ _ start_point =>
    (if count + 1 = failAt then SuccessCode.Other 1 else SuccessCode.Success,
      start_point + 1, count + 1)

/-- What holds of the bootstrap state once `m` tracker calls have been made: both sequences
have `n` entries, the times follow the geometric progression up to index `m`, the first
sample is the start point, the `j`-th recorded call went from `times[j]`, `samples[j]` to
`times[j + 1]` and its result is `samples[j + 1]`, and every call but the last returned
`Success`. -/
def SampleInv {σ K P : Type} [Field K] (n : Nat) (t0 q : K) (x0 : P) (m : Nat)
    (st : SampleState σ K P) : Prop :=
  st.times.length = n ∧ st.samples.length = n ∧ st.calls.length = m ∧ m + 1 ≤ n ∧
  (∀ i, i ≤ m → st.times[i]? = some (t0 * q ^ i)) ∧
  st.samples[0]? = some x0 ∧
  (∀ j c, st.calls[j]? = some c →
    c.start_time = t0 * q ^ j ∧ c.end_time = t0 * q ^ (j + 1) ∧
    st.samples[j]? = some c.start_point ∧ st.samples[j + 1]? = some c.solution) ∧
  (∀ j c, st.calls[j]? = some c → j + 1 < m → c.status = SuccessCode.Success)

/-- The recorded calls `calls` are successive calls of `track`: started in the tracker
state `s`, each call takes the state its predecessor left, returns the recorded status and
point, and the last one leaves the state `s'`. -/
def Replays {σ K P : Type} (track : σ → P → K → K → P → SuccessCode × P × σ) :
    σ → List (Invocation K P) → σ → Prop
  | s, [], s' => s' = s
  | s, c :: cs, s' =>
    ∃ out s1, track s out c.start_time c.end_time c.start_point = (c.status, c.solution, s1) ∧
      Replays track s1 cs s'

/-! ## The state of `EndgameBase` and its accessors -/

/-- The data members of `EndgameBase` (source lines 142 to 164). The two components of
`final_approximation_at_origin_` are the low-precision and the extended-precision vector,
as lists of coefficients; the tolerance and security bundles are declared in another
header and are kept abstract. -/
structure EndgameBase (TrackerType R Tol Sec dbl mpfr : Type) where
  final_approximation_at_origin_ : List dbl × List mpfr
  cycle_number_ : Nat
  endgame_settings_ : config.Endgame R
  tolerances_ : Tol
  security_ : Sec
  tracker_ : TrackerType

namespace EndgameBase

variable {TrackerType R Tol Sec dbl mpfr : Type}

/-- The constructor from a tracker and the ordered triple of bundles (source lines 169 to
174). The members without an initialiser are default-constructed: an empty vector in each
precision, and the cycle number `0`. -/
def construct (tr : TrackerType) (settings : config.Endgame R × Sec × Tol) :
    EndgameBase TrackerType R Tol Sec dbl mpfr where
  final_approximation_at_origin_ := ([], [])
  cycle_number_ := 0
  endgame_settings_ := settings.1
  tolerances_ := settings.2.2
  security_ := settings.2.1
  tracker_ := tr

/-- The getter `CycleNumber()` (source line 181). -/
def CycleNumber (e : EndgameBase TrackerType R Tol Sec dbl mpfr) : Nat := e.cycle_number_

/-- The setter `CycleNumber(unsigned c)` (source line 182). -/
def SetCycleNumber (e : EndgameBase TrackerType R Tol Sec dbl mpfr) (c : Nat) :
    EndgameBase TrackerType R Tol Sec dbl mpfr :=
  { e with cycle_number_ := c }

/-- The member `IncrementCycleNumber(unsigned inc)` (source line 183): `cycle_number_ += inc`
in `unsigned` arithmetic. -/
def IncrementCycleNumber (e : EndgameBase TrackerType R Tol Sec dbl mpfr) (inc : Nat) :
    EndgameBase TrackerType R Tol Sec dbl mpfr :=
  { e with cycle_number_ := uadd e.cycle_number_ inc }

/-- The getter `EndgameSettings()` (source lines 187 to 190). -/
def EndgameSettings (e : EndgameBase TrackerType R Tol Sec dbl mpfr) : config.Endgame R :=
  e.endgame_settings_

/-- The getter `Tolerances()` (source lines 192 to 195). -/
def Tolerances (e : EndgameBase TrackerType R Tol Sec dbl mpfr) : Tol := e.tolerances_

/-- The getter `SecuritySettings()` (source lines 197 to 200). -/
def SecuritySettings (e : EndgameBase TrackerType R Tol Sec dbl mpfr) : Sec := e.security_

/-- The setter `SetEndgameSettings` (source line 207). -/
def SetEndgameSettings (e : EndgameBase TrackerType R Tol Sec dbl mpfr)
    (new_endgame_settings : config.Endgame R) : EndgameBase TrackerType R Tol Sec dbl mpfr :=
  { e with endgame_settings_ := new_endgame_settings }

/-- The setter `SetSecuritySettings` (source line 215). -/
def SetSecuritySettings (e : EndgameBase TrackerType R Tol Sec dbl mpfr)
    (new_endgame_security_settings : Sec) : EndgameBase TrackerType R Tol Sec dbl mpfr :=
  { e with security_ := new_endgame_security_settings }

/-- The setter `SetToleranceSettings` (source line 221). -/
def SetToleranceSettings (e : EndgameBase TrackerType R Tol Sec dbl mpfr)
    (new_tolerances_settings : Tol) : EndgameBase TrackerType R Tol Sec dbl mpfr :=
  { e with tolerances_ := new_tolerances_settings }

/-- The getter `GetTracker()` (source line 227). -/
def GetTracker (e : EndgameBase TrackerType R Tol Sec dbl mpfr) : TrackerType := e.tracker_

/-- The instance `FinalApproximation<dbl>()` of the getter at source line 230:
`std::get< Vec<dbl> >` of the tuple. -/
def FinalApproximation_dbl (e : EndgameBase TrackerType R Tol Sec dbl mpfr) : List dbl :=
  e.final_approximation_at_origin_.1

/-- The instance `FinalApproximation<mpfr>()` of the getter at source line 230:
`std::get< Vec<mpfr> >` of the tuple. -/
def FinalApproximation_mpfr (e : EndgameBase TrackerType R Tol Sec dbl mpfr) : List mpfr :=
  e.final_approximation_at_origin_.2

end EndgameBase

/-! # Lemmas -/

/-! ## Basic facts about the machine arithmetic and the containers -/

theorem umul_eq {a b : Nat} (h : a * b < UINT_RANGE) : umul a b = a * b :=
  Nat.mod_eq_of_lt h

theorem uadd_eq {a b : Nat} (h : a + b < UINT_RANGE) : uadd a b = a + b :=
  Nat.mod_eq_of_lt h

theorem usub_eq {a b : Nat} (hb : b ≤ a) (ha : a < UINT_RANGE) : usub a b = a - b := by
  have hb' : b < UINT_RANGE := lt_of_le_of_lt hb ha
  unfold usub
  rw [Nat.mod_eq_of_lt ha, Nat.mod_eq_of_lt hb']
  have h1 : a + UINT_RANGE - b = (a - b) + UINT_RANGE := by omega
  rw [h1, Nat.add_mod_right]
  exact Nat.mod_eq_of_lt (by omega)

theorem index_eq_ok {α : Type} (xs : List α) (i : Nat) (d : α) (h : i < xs.length) :
    index xs i = .ok (xs.getD i d) := by
  simp [index, List.getD, List.getElem?_eq_getElem h]

theorem index_eq_error {α : Type} (xs : List α) (i : Nat) (h : xs.length ≤ i) :
    index xs i = .error Failure.outOfRange := by
  simp [index, List.getElem?_eq_none h]

namespace Mat

variable {α : Type}

theorem Holds.create (r c : Nat) (val : Nat → Nat → α) :
    (Mat.create r c : Mat α).Holds r c (fun _ _ => False) val :=
  ⟨rfl, rfl, fun _ _ => ⟨fun h => h.elim, fun _ => rfl⟩⟩

theorem Holds.congr {m : Mat α} {r c : Nat} {W W' : Nat → Nat → Prop} {val : Nat → Nat → α}
    (h : m.Holds r c W val) (hW : ∀ a b, W' a b ↔ W a b) : m.Holds r c W' val :=
  ⟨h.1, h.2.1, fun a b =>
    ⟨fun w => (h.2.2 a b).1 ((hW a b).1 w), fun w => (h.2.2 a b).2 (fun w' => w ((hW a b).2 w'))⟩⟩

theorem Holds.read {m : Mat α} {r c : Nat} {W : Nat → Nat → Prop} {val : Nat → Nat → α}
    (h : m.Holds r c W val) {i j : Nat} (hi : i < r) (hj : j < c) (hw : W i j) :
    m.read i j = .ok (val i j) := by
  obtain ⟨hr, hc, hcell⟩ := h
  simp [Mat.read, hr, hc, hi, hj, (hcell i j).1 hw]

theorem Holds.write {m : Mat α} {r c : Nat} {W : Nat → Nat → Prop} {val : Nat → Nat → α}
    (h : m.Holds r c W val) {i j : Nat} (hi : i < r) (hj : j < c) :
    ∃ m', m.write i j (val i j) = .ok m' ∧
      m'.Holds r c (fun a b => W a b ∨ (a = i ∧ b = j)) val := by
  obtain ⟨hr, hc, hcell⟩ := h
  refine ⟨m.assign i j (val i j), by simp only [Mat.write, hr, hc, hi, hj, and_self, if_true],
    hr, hc, fun a b => ?_⟩
  by_cases hab : a = i ∧ b = j
  · obtain ⟨rfl, rfl⟩ := hab
    simp [Mat.assign]
  · constructor
    · intro w
      have w' : W a b := w.resolve_right hab
      simp [Mat.assign, hab, (hcell a b).1 w']
    · intro w
      have w' : ¬ W a b := fun x => w (Or.inl x)
      simp [Mat.assign, hab, (hcell a b).2 w']

end Mat

/-- Loop rule: a fold over `List.range'` in the failure monad succeeds when every
iteration preserves the invariant `P`. -/
theorem foldlM_range'_inv {σ : Type} (f : σ → Nat → Except Failure σ) (P : Nat → σ → Prop)
    (len : Nat) : ∀ (s : Nat) (st : σ), P s st →
      (∀ k st, s ≤ k → k < s + len → P k st → ∃ st', f st k = .ok st' ∧ P (k + 1) st') →
      ∃ st', (List.range' s len).foldlM f st = .ok st' ∧ P (s + len) st' := by
  induction len with
  | zero => intro s st h0 _; exact ⟨st, rfl, h0⟩
  | succ len ih =>
    intro s st h0 hstep
    obtain ⟨st1, h1, hP1⟩ := hstep s st (le_refl s) (by omega) h0
    obtain ⟨st2, h2, hP2⟩ := ih (s + 1) st1 hP1
      (fun k st hk hlt hP => hstep k st (by omega) (by omega) hP)
    refine ⟨st2, ?_, ?_⟩
    · rw [List.range'_succ, List.foldlM_cons, h1]
      exact h2
    · have e : s + (len + 1) = s + 1 + len := by omega
      rw [e]; exact hP2

theorem bind_ok {α β : Type} (a : α) (f : α → Except Failure β) :
    (Except.ok a >>= f) = f a := rfl

theorem bind_error {α β : Type} (e : Failure) (f : α → Except Failure β) :
    (Except.error e >>= f) = Except.error e := rfl

/-! ## The table construction succeeds and assigns the expected cells -/

section Construction

variable {K V : Type} [Field K] [AddCommGroup V] [Module K V]

theorem ddAt_zero_even (times : List K) (samples derivatives : List V) (k : Nat) :
    ddAt times samples derivatives 0 (2 * k) = samples.getD k 0 := by
  simp [ddAt]

theorem ddAt_zero_odd (times : List K) (samples derivatives : List V) (k : Nat) :
    ddAt times samples derivatives 0 (2 * k + 1) = samples.getD k 0 := by
  have h : (2 * k + 1) / 2 = k := by omega
  simp [ddAt, h]

theorem ddAt_one_odd (times : List K) (samples derivatives : List V) (k : Nat) :
    ddAt times samples derivatives 1 (2 * k + 1) = derivatives.getD k 0 := by
  have h : (2 * k + 1) / 2 = k := by omega
  have h' : (2 * k + 1) % 2 = 1 := by omega
  simp [ddAt, h, h']

theorem zAt_even (times : List K) (k : Nat) : zAt times (2 * k) = times.getD k 0 := by
  simp [zAt]

theorem zAt_odd (times : List K) (k : Nat) : zAt times (2 * k + 1) = times.getD k 0 := by
  have h : (2 * k + 1) / 2 = k := by omega
  simp [zAt, h]

theorem seedStep_spec (n : Nat) (times : List K) (samples derivatives : List V)
    (h2n : 2 * n < UINT_RANGE) (k : Nat) (hk : k < n) (ht : k < times.length)
    (hs : k < samples.length) (hd : k < derivatives.length) (st : Tables K V)
    (hF : st.space_differences.Holds (2 * n) (2 * n) (seeded k)
      (fun a b => ddAt times samples derivatives b a))
    (hz : st.time_differences.Holds (2 * n) 1 (timed k) (fun a _ => zAt times a)) :
    ∃ st', seedStep times samples derivatives st k = .ok st' ∧
      st'.space_differences.Holds (2 * n) (2 * n) (seeded (k + 1))
        (fun a b => ddAt times samples derivatives b a) ∧
      st'.time_differences.Holds (2 * n) 1 (timed (k + 1)) (fun a _ => zAt times a) := by
  have e1 : umul 2 k = 2 * k := umul_eq (by omega)
  have e2 : uadd (2 * k) 1 = 2 * k + 1 := uadd_eq (by omega)
  obtain ⟨F1, hw1, hF1⟩ := hF.write (i := 2 * k) (j := 0) (by omega) (by omega)
  obtain ⟨F2, hw2, hF2⟩ := hF1.write (i := 2 * k + 1) (j := 0) (by omega) (by omega)
  obtain ⟨F3, hw3, hF3⟩ := hF2.write (i := 2 * k + 1) (j := 1) (by omega) (by omega)
  obtain ⟨z1, hv1, hz1⟩ := hz.write (i := 2 * k) (j := 0) (by omega) (by omega)
  obtain ⟨z2, hv2, hz2⟩ := hz1.write (i := 2 * k + 1) (j := 0) (by omega) (by omega)
  simp only [ddAt_zero_even, ddAt_zero_odd, ddAt_one_odd] at hw1 hw2 hw3
  simp only [zAt_even, zAt_odd] at hv1 hv2
  refine ⟨⟨F3, z2⟩, ?_, ?_, ?_⟩
  · simp only [seedStep, e1, e2, index_eq_ok samples k 0 (by omega),
      index_eq_ok derivatives k 0 (by omega), index_eq_ok times k 0 (by omega), bind_ok,
      hw1, hw2, hw3, hv1, hv2]
    rfl
  · refine hF3.congr (fun a b => ?_)
    simp only [seeded]
    omega
  · refine hz2.congr (fun a b => ?_)
    simp only [timed]
    omega

theorem ddAt_one_even (times : List K) (samples derivatives : List V) (k : Nat) :
    ddAt times samples derivatives 1 (2 * k) =
      (1 / (zAt times (2 * k) - zAt times (2 * k - 1))) •
        (ddAt times samples derivatives 0 (2 * k) -
          ddAt times samples derivatives 0 (2 * k - 1)) := by
  have h' : (2 * k) % 2 ≠ 1 := by omega
  simp [ddAt, h']

theorem ddAt_succ_succ (times : List K) (samples derivatives : List V) (jj ii : Nat)
    (hj : 2 ≤ jj) :
    ddAt times samples derivatives jj ii =
      (1 / (zAt times ii - zAt times (ii - jj))) •
        (ddAt times samples derivatives (jj - 1) ii -
          ddAt times samples derivatives (jj - 1) (ii - 1)) := by
  obtain ⟨j, rfl⟩ : ∃ j, jj = j + 2 := ⟨jj - 2, by omega⟩
  simp [ddAt]

theorem firstOrderStep_spec (n : Nat) (times : List K) (samples derivatives : List V)
    (h2n : 2 * n < UINT_RANGE) (k : Nat) (hk1 : 1 ≤ k) (hk : k < n) (st : Tables K V)
    (hF : st.space_differences.Holds (2 * n) (2 * n) (firstOrder n k)
      (fun a b => ddAt times samples derivatives b a))
    (hz : st.time_differences.Holds (2 * n) 1 (timed n) (fun a _ => zAt times a)) :
    ∃ st', firstOrderStep st k = .ok st' ∧
      st'.space_differences.Holds (2 * n) (2 * n) (firstOrder n (k + 1))
        (fun a b => ddAt times samples derivatives b a) ∧
      st'.time_differences.Holds (2 * n) 1 (timed n) (fun a _ => zAt times a) := by
  have e1 : umul 2 k = 2 * k := umul_eq (by omega)
  have e2 : usub (2 * k) 1 = 2 * k - 1 := usub_eq (by omega) (by omega)
  have r1 := hz.read (i := 2 * k) (j := 0) (by omega) (by omega) ⟨by omega, rfl⟩
  have r2 := hz.read (i := 2 * k - 1) (j := 0) (by omega) (by omega) ⟨by omega, rfl⟩
  have r3 := hF.read (i := 2 * k) (j := 0) (by omega) (by omega) ⟨by omega, Or.inl rfl⟩
  have r4 := hF.read (i := 2 * k - 1) (j := 0) (by omega) (by omega) ⟨by omega, Or.inl rfl⟩
  obtain ⟨F1, hw1, hF1⟩ := hF.write (i := 2 * k) (j := 1) (by omega) (by omega)
  simp only [ddAt_one_even] at hw1
  refine ⟨{ st with space_differences := F1 }, ?_, ?_, hz⟩
  · simp only [firstOrderStep, e1, e2, r1, r2, r3, r4, bind_ok, hw1]
    rfl
  · refine hF1.congr (fun a b => ?_)
    simp only [firstOrder]
    omega

theorem higherOrderStep_spec (n : Nat) (times : List K) (samples derivatives : List V)
    (h2n : 2 * n < UINT_RANGE) (ii jj : Nat) (hj2 : 2 ≤ jj) (hji : jj ≤ ii) (hi : ii < 2 * n)
    (st : Tables K V)
    (hF : st.space_differences.Holds (2 * n) (2 * n) (higherOrder n ii jj)
      (fun a b => ddAt times samples derivatives b a))
    (hz : st.time_differences.Holds (2 * n) 1 (timed n) (fun a _ => zAt times a)) :
    ∃ st', higherOrderStep ii st jj = .ok st' ∧
      st'.space_differences.Holds (2 * n) (2 * n) (higherOrder n ii (jj + 1))
        (fun a b => ddAt times samples derivatives b a) ∧
      st'.time_differences.Holds (2 * n) 1 (timed n) (fun a _ => zAt times a) := by
  have e1 : usub ii jj = ii - jj := usub_eq hji (by omega)
  have e2 : usub jj 1 = jj - 1 := usub_eq (by omega) (by omega)
  have e3 : usub ii 1 = ii - 1 := usub_eq (by omega) (by omega)
  have r1 := hz.read (i := ii) (j := 0) (by omega) (by omega) ⟨by omega, rfl⟩
  have r2 := hz.read (i := ii - jj) (j := 0) (by omega) (by omega) ⟨by omega, rfl⟩
  have m3 : higherOrder n ii jj ii (jj - 1) := by
    refine ⟨hi, ?_⟩
    by_cases h : jj = 2
    · right; left; omega
    · right; right; omega
  have r3 := hF.read (i := ii) (j := jj - 1) (by omega) (by omega) m3
  have r4 := hF.read (i := ii - 1) (j := jj - 1) (by omega) (by omega)
    (by simp only [higherOrder]; omega)
  obtain ⟨F1, hw1, hF1⟩ := hF.write (i := ii) (j := jj) (by omega) (by omega)
  simp only [ddAt_succ_succ times samples derivatives jj ii hj2] at hw1
  refine ⟨{ st with space_differences := F1 }, ?_, ?_, hz⟩
  · simp only [higherOrderStep, e1, e2, e3, r1, r2, r3, r4, bind_ok, hw1]
    rfl
  · refine hF1.congr (fun a b => ?_)
    simp only [higherOrder]
    omega

/-- On inputs of sufficient length the table construction succeeds: the cells of the lower
triangle hold the values `ddAt`, the other cells stay unassigned, and the time vector holds
every time twice. -/
theorem fillTables_spec (n : Nat) (times : List K) (samples derivatives : List V)
    (h2n : 2 * n < UINT_RANGE) (ht : n ≤ times.length) (hs : n ≤ samples.length)
    (hd : n ≤ derivatives.length) :
    ∃ st : Tables K V, fillTables n times samples derivatives = .ok st ∧
      st.space_differences.Holds (2 * n) (2 * n) (assigned n)
        (fun a b => ddAt times samples derivatives b a) ∧
      st.time_differences.Holds (2 * n) 1 (timed n) (fun a _ => zAt times a) := by
  have e1 : umul 2 n = 2 * n := umul_eq h2n
  -- the seeding loop
  obtain ⟨st1, h1, hF1, hz1⟩ := foldlM_range'_inv (seedStep times samples derivatives)
    (fun k st => st.space_differences.Holds (2 * n) (2 * n) (seeded k)
        (fun a b => ddAt times samples derivatives b a) ∧
      st.time_differences.Holds (2 * n) 1 (timed k) (fun a _ => zAt times a))
    n 0 ⟨Mat.create (2 * n) (2 * n), Mat.create (2 * n) 1⟩
    ⟨(Mat.Holds.create _ _ _).congr (fun a b => by simp [seeded]),
      (Mat.Holds.create _ _ _).congr (fun a b => by simp [timed])⟩
    (fun k st _ hk hP =>
      seedStep_spec n times samples derivatives h2n k (by omega) (by omega) (by omega)
        (by omega) st hP.1 hP.2)
  rw [Nat.zero_add] at hF1 hz1
  -- the first-order loop
  obtain ⟨st2, h2, hF2, hz2⟩ := foldlM_range'_inv firstOrderStep
    (fun k st => st.space_differences.Holds (2 * n) (2 * n) (firstOrder n k)
        (fun a b => ddAt times samples derivatives b a) ∧
      st.time_differences.Holds (2 * n) 1 (timed n) (fun a _ => zAt times a))
    (n - 1) 1 st1
    ⟨hF1.congr (fun a b => by simp only [firstOrder, seeded]; omega), hz1⟩
    (fun k st hk1 hk hP =>
      firstOrderStep_spec n times samples derivatives h2n k hk1 (by omega) st hP.1 hP.2)
  -- the higher-order loops
  obtain ⟨st3, h3, hF3, hz3⟩ := foldlM_range'_inv
    (fun st ii => (List.range' 2 (ii - 1)).foldlM (higherOrderStep ii) st)
    (fun ii st => st.space_differences.Holds (2 * n) (2 * n) (higherOrder n ii 2)
        (fun a b => ddAt times samples derivatives b a) ∧
      st.time_differences.Holds (2 * n) 1 (timed n) (fun a _ => zAt times a))
    (2 * n - 2) 2 st2
    ⟨hF2.congr (fun a b => by simp only [firstOrder, higherOrder]; omega), hz2⟩
    (fun ii st hi2 hi hP => by
      obtain ⟨st', h', hF', hz'⟩ := foldlM_range'_inv (higherOrderStep ii)
        (fun jj st => st.space_differences.Holds (2 * n) (2 * n) (higherOrder n ii jj)
            (fun a b => ddAt times samples derivatives b a) ∧
          st.time_differences.Holds (2 * n) 1 (timed n) (fun a _ => zAt times a))
        (ii - 1) 2 st hP
        (fun jj st hj2 hj hP =>
          higherOrderStep_spec n times samples derivatives h2n ii jj hj2 (by omega) (by omega)
            st hP.1 hP.2)
      exact ⟨st', h', hF'.congr (fun a b => by simp only [higherOrder]; omega), hz'⟩)
  refine ⟨st3, ?_, hF3.congr (fun a b => by simp only [higherOrder, assigned]; omega), hz3⟩
  simp only [fillTables, e1, List.range_eq_range', h1, h2, bind_ok]
  exact h3

theorem hornerLoop_spec (n : Nat) (times : List K) (samples derivatives : List V)
    (h2n : 2 * n < UINT_RANGE) (target_time : K) (st : Tables K V)
    (hF : st.space_differences.Holds (2 * n) (2 * n) (assigned n)
      (fun a b => ddAt times samples derivatives b a))
    (hz : st.time_differences.Holds (2 * n) 1 (timed n) (fun a _ => zAt times a)) :
    ∀ (ii : Nat) (Result : V), ii + 1 ≤ n →
      hornerLoop target_time st ii Result =
        .ok (hornerAt times samples derivatives target_time ii Result) := by
  intro ii
  induction ii with
  | zero => intro Result _; rfl
  | succ ii ih =>
    intro Result hii
    have e1 : umul 2 (ii + 1) = 2 * (ii + 1) := umul_eq (by omega)
    have e2 : usub (ii + 1) 1 = ii := usub_eq (by omega) (by omega)
    have e3 : usub (2 * (ii + 1)) 1 = 2 * ii + 1 := by
      rw [usub_eq (by omega) (by omega)]; omega
    have r1 := hz.read (i := ii + 1) (j := 0) (by omega) (by omega) ⟨by omega, rfl⟩
    have r2 := hF.read (i := 2 * (ii + 1)) (j := 2 * (ii + 1)) (by omega) (by omega)
      ⟨by omega, le_refl _⟩
    have r3 := hz.read (i := ii) (j := 0) (by omega) (by omega) ⟨by omega, rfl⟩
    have r4 := hF.read (i := 2 * ii + 1) (j := 2 * ii + 1) (by omega) (by omega)
      ⟨by omega, le_refl _⟩
    simp only [hornerLoop, hornerStep, e1, e2, e3, r1, r2, r3, r4, bind_ok]
    rw [show (pure _ >>= _) = _ from bind_ok _ _, ih _ (by omega)]
    rfl

/-- On inputs of sufficient length `HermiteInterpolateAndSolve` returns a value,
and that value is `hermiteValue`. -/
theorem HermiteInterpolateAndSolve_eq_ok (target_time : K) (n : Nat) (times : List K)
    (samples derivatives : List V) (hn : 1 ≤ n) (h2n : 2 * n < UINT_RANGE)
    (ht : n ≤ times.length) (hs : n ≤ samples.length) (hd : n ≤ derivatives.length) :
    HermiteInterpolateAndSolve target_time n times samples derivatives =
      .ok (hermiteValue target_time n times samples derivatives) := by
  obtain ⟨st, hfill, hF, hz⟩ := fillTables_spec n times samples derivatives h2n ht hs hd
  have e1 : umul 2 n = 2 * n := umul_eq h2n
  have e2 : usub n 1 = n - 1 := usub_eq hn (by omega)
  have e3 : usub (2 * n) 1 = 2 * n - 1 := usub_eq (by omega) h2n
  have r1 := hF.read (i := 2 * n - 1) (j := 2 * n - 1) (by omega) (by omega)
    ⟨by omega, le_refl _⟩
  have r2 := hz.read (i := 0) (j := 0) (by omega) (by omega) ⟨by omega, rfl⟩
  have r3 := hF.read (i := 0) (j := 0) (by omega) (by omega) ⟨by omega, le_refl _⟩
  have r4 := hornerLoop_spec n times samples derivatives h2n target_time st hF hz (n - 1)
    (ddAt times samples derivatives (2 * n - 1) (2 * n - 1)) (by omega)
  have a1 : ¬ ¬ times.length ≥ n := fun h => h ht
  have a2 : ¬ ¬ samples.length ≥ n := fun h => h hs
  simp only [HermiteInterpolateAndSolve, a1, a2, if_false, hfill, evaluate, e1, e2, e3, r1, r2,
    r3, r4, bind_ok]
  rfl

end Construction

/-! ## The sampling loop -/

theorem index_of_getElem? {α : Type} {xs : List α} {i : Nat} {a : α} (h : xs[i]? = some a) :
    index xs i = .ok a := by
  simp [index, h]

theorem assignAt_of_lt {α : Type} (xs : List α) (i : Nat) (v : α) (h : i < xs.length) :
    assignAt xs i v = .ok (xs.set i v) := by
  simp [assignAt, h]

theorem exists_getElem? {α : Type} {xs : List α} {i : Nat} (h : i < xs.length) :
    ∃ a, xs[i]? = some a :=
  ⟨xs[i], List.getElem?_eq_getElem h⟩

theorem length_resize {α : Type} (xs : List α) (n : Nat) (d : α) :
    (resize xs n d).length = n := by
  simp only [resize, List.length_append, List.length_take, List.length_replicate]
  omega

section BootstrapLemmas

variable {σ R K P : Type} [Field R] [Field K] [Algebra R K]

/-- One round of the sampling loop: it succeeds as an operation on the containers, makes
exactly one tracker call, and extends the invariant by one index. -/
theorem sampleStep_spec (es : config.Endgame R) (n : Nat) (t0 : K) (x0 : P) (m : Nat)
    (st : SampleState σ K P)
    (hinv : SampleInv n t0 (algebraMap R K es.sample_factor) x0 m st) (hm : m + 2 ≤ n)
    (hall : ∀ c ∈ st.calls, c.status = SuccessCode.Success) :
    ∃ (code : SuccessCode) (st' : SampleState σ K P) (c : Invocation K P),
      sampleStep es st (m + 1) = .ok (code, st') ∧
      SampleInv n t0 (algebraMap R K es.sample_factor) x0 (m + 1) st' ∧
      st'.calls = st.calls ++ [c] ∧ c.status = code := by
  obtain ⟨hT, hS, hC, -, htimes, hs0, hcalls, -⟩ := hinv
  have hprev : st.times[m]? = some (t0 * algebraMap R K es.sample_factor ^ m) :=
    htimes m (le_refl m)
  obtain ⟨out, hout⟩ : ∃ a, st.samples[m + 1]? = some a := exists_getElem? (by omega)
  obtain ⟨sp, hsp⟩ : ∃ a, st.samples[m]? = some a := exists_getElem? (by omega)
  have hne : m + 1 ≠ m := by omega
  have i1 := index_of_getElem? hprev
  have i2 := assignAt_of_lt st.times (m + 1)
    (t0 * algebraMap R K es.sample_factor ^ m * algebraMap R K es.sample_factor) (by omega)
  have i3 := index_of_getElem? hout
  have i4 : index (st.times.set (m + 1)
      (t0 * algebraMap R K es.sample_factor ^ m * algebraMap R K es.sample_factor)) m =
      .ok (t0 * algebraMap R K es.sample_factor ^ m) :=
    index_of_getElem? (by rw [List.getElem?_set_ne hne]; exact hprev)
  have i5 : index (st.times.set (m + 1)
      (t0 * algebraMap R K es.sample_factor ^ m * algebraMap R K es.sample_factor)) (m + 1) =
      .ok (t0 * algebraMap R K es.sample_factor ^ m * algebraMap R K es.sample_factor) :=
    index_of_getElem? (List.getElem?_set_self (by omega))
  have i6 := index_of_getElem? hsp
  rcases hcall : st.tracker_.TrackPath st.tracker_.state out
      (t0 * algebraMap R K es.sample_factor ^ m)
      (t0 * algebraMap R K es.sample_factor ^ m * algebraMap R K es.sample_factor)
      sp with ⟨code, sol, state⟩
  have i7 := assignAt_of_lt st.samples (m + 1) sol (by omega)
  refine ⟨code,
    { times := st.times.set (m + 1)
        (t0 * algebraMap R K es.sample_factor ^ m * algebraMap R K es.sample_factor)
      samples := st.samples.set (m + 1) sol
      tracker_ := { st.tracker_ with state := state }
      calls := st.calls ++ [⟨t0 * algebraMap R K es.sample_factor ^ m,
        t0 * algebraMap R K es.sample_factor ^ m * algebraMap R K es.sample_factor,
        sp, code, sol⟩] },
    ⟨t0 * algebraMap R K es.sample_factor ^ m,
      t0 * algebraMap R K es.sample_factor ^ m * algebraMap R K es.sample_factor,
      sp, code, sol⟩, ?_, ?_, rfl, rfl⟩
  · simp only [sampleStep, Nat.add_sub_cancel, i1, i2, i3, i4, i5, i6, i7, bind_ok, hcall]
    rfl
  · refine ⟨by simp [hT], by simp [hS], by simp [hC], by omega, ?_, ?_, ?_, ?_⟩
    · intro i hi
      by_cases him : i = m + 1
      · subst him
        rw [List.getElem?_set_self (by omega), pow_succ, mul_assoc]
      · rw [List.getElem?_set_ne (Ne.symm him)]
        exact htimes i (by omega)
    · rw [List.getElem?_set_ne (by omega)]
      exact hs0
    · intro j c hc
      by_cases hj : j < st.calls.length
      · rw [List.getElem?_append_left hj] at hc
        obtain ⟨h1, h2, h3, h4⟩ := hcalls j c hc
        refine ⟨h1, h2, ?_, ?_⟩
        · rw [List.getElem?_set_ne (by omega)]; exact h3
        · rw [List.getElem?_set_ne (by omega)]; exact h4
      · have hjm : j = m := by
          have := (List.getElem?_eq_some.1 hc).1
          simp only [List.length_append, List.length_singleton] at this
          omega
        subst hjm
        rw [← hC, List.getElem?_concat_length] at hc
        obtain rfl := (Option.some.inj hc).symm
        refine ⟨by rw [hC], by rw [hC, pow_succ, mul_assoc], ?_, ?_⟩
        · rw [List.getElem?_set_ne (by omega)]; rw [hC]; exact hsp
        · rw [hC]; exact List.getElem?_set_self (by omega)
    · intro j c hc hj
      have hj' : j < st.calls.length := by omega
      rw [List.getElem?_append_left hj'] at hc
      exact hall c (List.getElem?_mem hc)

/-- The sampling loop from index `m + 1` on: it ends with a status and a state; the
invariant holds for the calls made; either the status is `Success`, `n - 1` calls were made
and all returned `Success`, or the status is the non-success status of the last call. -/
theorem sampleLoop_spec (es : config.Endgame R) (n : Nat) (t0 : K) (x0 : P) :
    ∀ (len m : Nat) (st : SampleState σ K P),
      SampleInv n t0 (algebraMap R K es.sample_factor) x0 m st →
      (∀ c ∈ st.calls, c.status = SuccessCode.Success) → m + 1 + len = n →
      ∃ (code : SuccessCode) (st' : SampleState σ K P),
        sampleLoop es (List.range' (m + 1) len) st = .ok (code, st') ∧
        SampleInv n t0 (algebraMap R K es.sample_factor) x0 st'.calls.length st' ∧
        ((code = SuccessCode.Success ∧ st'.calls.length + 1 = n ∧
            ∀ c ∈ st'.calls, c.status = SuccessCode.Success) ∨
          (code ≠ SuccessCode.Success ∧
            ∃ c, st'.calls.getLast? = some c ∧ c.status = code)) := by
  intro len
  induction len with
  | zero =>
    intro m st hinv hall hlen
    have hC : st.calls.length = m := hinv.2.2.1
    refine ⟨SuccessCode.Success, st, rfl, by rw [hC]; exact hinv, Or.inl ⟨rfl, ?_, hall⟩⟩
    omega
  | succ len ih =>
    intro m st hinv hall hlen
    obtain ⟨code, st1, c, hstep, hinv1, hcalls1, hstatus⟩ :=
      sampleStep_spec es n t0 x0 m st hinv (by omega) hall
    have hC1 : st1.calls.length = m + 1 := hinv1.2.2.1
    by_cases hcode : code = SuccessCode.Success
    · have hall1 : ∀ c' ∈ st1.calls, c'.status = SuccessCode.Success := by
        intro c' hc'
        rw [hcalls1, List.mem_append, List.mem_singleton] at hc'
        rcases hc' with h | h
        · exact hall c' h
        · rw [h, hstatus, hcode]
      obtain ⟨code2, st2, hloop, hinv2, hpost⟩ := ih (m + 1) st1 hinv1 hall1 (by omega)
      refine ⟨code2, st2, ?_, hinv2, hpost⟩
      rw [List.range'_succ]
      simp only [sampleLoop, hstep, bind_ok, hcode, ne_eq, not_true_eq_false, if_false]
      exact hloop
    · refine ⟨code, st1, ?_, by rw [hC1]; exact hinv1, Or.inr ⟨hcode, c, ?_, hstatus⟩⟩
      · rw [List.range'_succ]
        simp only [sampleLoop, hstep, bind_ok, ne_eq, hcode, not_false_eq_true, if_true]
        rfl
      · rw [hcalls1, List.getLast?_concat]

/-- For a positive number of sample points `ComputeInitialSamples` ends with a status and
a state, related as in `sampleLoop_spec`. -/
theorem ComputeInitialSamples_spec [Inhabited P] (es : config.Endgame R) (tr : Tracker σ K P)
    (start_time : K) (x_endgame : P) (times : List K) (samples : List P)
    (hn : 1 ≤ es.num_sample_points) :
    ∃ (code : SuccessCode) (st : SampleState σ K P),
      ComputeInitialSamples es tr start_time x_endgame times samples = .ok (code, st) ∧
      SampleInv es.num_sample_points start_time (algebraMap R K es.sample_factor) x_endgame
        st.calls.length st ∧
      ((code = SuccessCode.Success ∧ st.calls.length + 1 = es.num_sample_points ∧
          ∀ c ∈ st.calls, c.status = SuccessCode.Success) ∨
        (code ≠ SuccessCode.Success ∧
          ∃ c, st.calls.getLast? = some c ∧ c.status = code)) := by
  have hS : 0 < (resize samples es.num_sample_points default).length := by
    rw [length_resize]; omega
  have hT : 0 < (resize times es.num_sample_points (0 : K)).length := by
    rw [length_resize]; omega
  have hinv : SampleInv es.num_sample_points start_time (algebraMap R K es.sample_factor)
      x_endgame 0
      (⟨(resize times es.num_sample_points 0).set 0 start_time,
        (resize samples es.num_sample_points default).set 0 x_endgame, tr, []⟩ :
        SampleState σ K P) := by
    refine ⟨by simp [length_resize], by simp [length_resize], rfl, by omega, ?_, ?_, ?_, ?_⟩
    · intro i hi
      obtain rfl : i = 0 := by omega
      simp [List.getElem?_set_self hT]
    · exact List.getElem?_set_self hS
    · intro j c hc
      simp at hc
    · intro j c hc
      simp at hc
  obtain ⟨code, st, hloop, hinv', hpost⟩ := sampleLoop_spec es es.num_sample_points start_time
    x_endgame (es.num_sample_points - 1) 0 _ hinv (by simp) (by omega)
  refine ⟨code, st, ?_, hinv', hpost⟩
  simp only [ComputeInitialSamples, assignAt_of_lt _ 0 x_endgame hS,
    assignAt_of_lt _ 0 start_time hT, bind_ok]
  exact hloop

/-- With no sample point configured the call does not return: the first assignment,
`samples[0] = x_endgame`, is outside the resized (empty) sequence. -/
theorem ComputeInitialSamples_zero [Inhabited P] (es : config.Endgame R) (tr : Tracker σ K P)
    (start_time : K) (x_endgame : P) (times : List K) (samples : List P)
    (hn : es.num_sample_points = 0) :
    ComputeInitialSamples es tr start_time x_endgame times samples =
      .error Failure.outOfRange := by
  simp [ComputeInitialSamples, hn, resize, assignAt, bind, Except.bind]

/-- A call that returns was made with at least one sample point configured. -/
theorem one_le_of_returns [Inhabited P] (es : config.Endgame R) (tr : Tracker σ K P)
    (start_time : K) (x_endgame : P) (times : List K) (samples : List P)
    (r : SuccessCode × SampleState σ K P)
    (h : ComputeInitialSamples es tr start_time x_endgame times samples = .ok r) :
    1 ≤ es.num_sample_points := by
  by_contra hn
  rw [ComputeInitialSamples_zero es tr start_time x_endgame times samples (by omega)] at h
  exact Except.noConfusion h

/-- A call that returns leaves a state in which the invariant holds for the calls made,
together with the relation between the returned status and the recorded statuses. -/
theorem returns_spec [Inhabited P] (es : config.Endgame R) (tr : Tracker σ K P)
    (start_time : K) (x_endgame : P) (times : List K) (samples : List P)
    (code : SuccessCode) (st : SampleState σ K P)
    (h : ComputeInitialSamples es tr start_time x_endgame times samples = .ok (code, st)) :
    SampleInv es.num_sample_points start_time (algebraMap R K es.sample_factor) x_endgame
        st.calls.length st ∧
      ((code = SuccessCode.Success ∧ st.calls.length + 1 = es.num_sample_points ∧
          ∀ c ∈ st.calls, c.status = SuccessCode.Success) ∨
        (code ≠ SuccessCode.Success ∧
          ∃ c, st.calls.getLast? = some c ∧ c.status = code)) := by
  obtain ⟨code', st', h', hinv, hpost⟩ := ComputeInitialSamples_spec es tr start_time x_endgame
    times samples (one_le_of_returns es tr start_time x_endgame times samples _ h)
  rw [h] at h'
  have e := Except.ok.inj h'
  have e1 : code = code' := congrArg Prod.fst e
  have e2 : st = st' := congrArg Prod.snd e
  subst e1 e2
  exact ⟨hinv, hpost⟩

end BootstrapLemmas

/-! # Properties of `HermiteInterpolateAndSolve` -/

section HermiteClaims

variable {K V : Type} [Field K] [AddCommGroup V] [Module K V]

/-- If the seeding loop reaches an index at which `derivatives` has no entry, the
iteration ends in an out-of-range access. -/
theorem seedStep_derivatives_short (n : Nat) (times : List K) (samples derivatives : List V)
    (h2n : 2 * n < UINT_RANGE) (k : Nat) (hk : k < n) (hs : k < samples.length)
    (hd : derivatives.length ≤ k) (st : Tables K V)
    (hF : st.space_differences.Holds (2 * n) (2 * n) (seeded k)
      (fun a b => ddAt times samples derivatives b a)) :
    seedStep times samples derivatives st k = .error Failure.outOfRange := by
  have e1 : umul 2 k = 2 * k := umul_eq (by omega)
  have e2 : uadd (2 * k) 1 = 2 * k + 1 := uadd_eq (by omega)
  obtain ⟨F1, hw1, hF1⟩ := hF.write (i := 2 * k) (j := 0) (by omega) (by omega)
  obtain ⟨F2, hw2, hF2⟩ := hF1.write (i := 2 * k + 1) (j := 0) (by omega) (by omega)
  simp only [ddAt_zero_even, ddAt_zero_odd] at hw1 hw2
  simp only [seedStep, e1, e2, index_eq_ok samples k 0 hs, index_eq_error derivatives k hd,
    bind_ok, bind_error, hw1, hw2]

/-- C1, at the input `n = 2`, `times = [0, 1]`, `p = X ^ 3`, `target_time = 2`: the cubic has
degree `2 * n - 1`, the samples and derivatives are its values and slopes, and the routine
returns `12` while `p 2 = 8`. -/
theorem hermite_cubic_not_reproduced :
    (Polynomial.X ^ 3 : Polynomial ℚ).natDegree ≤ 2 * 2 - 1 ∧
    HermiteInterpolateAndSolve (2 : ℚ) 2 [0, 1]
      [Polynomial.eval 0 (Polynomial.X ^ 3 : Polynomial ℚ), Polynomial.eval 1 (Polynomial.X ^ 3)]
      [Polynomial.eval 0 (Polynomial.derivative (Polynomial.X ^ 3 : Polynomial ℚ)),
        Polynomial.eval 1 (Polynomial.derivative (Polynomial.X ^ 3))]
      = .ok (12 : ℚ) ∧
    Polynomial.eval 2 (Polynomial.X ^ 3 : Polynomial ℚ) = 8 := by
  refine ⟨by simp, ?_, by norm_num⟩
  rw [HermiteInterpolateAndSolve_eq_ok _ _ _ _ _ (by decide) (by decide) (by simp) (by simp)
    (by simp)]
  simp [hermiteValue, hornerAt, ddAt, zAt]
  norm_num

/-- C2, at the input `n = 2`, `times = [0, 1]`, `samples = [0, 1]`, `derivatives = [0, 3]`:
called with `target_time = times[1]` the routine returns `2`, not `samples[1] = 1`. -/
theorem hermite_node_not_interpolated :
    HermiteInterpolateAndSolve (1 : ℚ) 2 [0, 1] [(0 : ℚ), 1] [0, 3] = .ok 2 := by
  rw [HermiteInterpolateAndSolve_eq_ok _ _ _ _ _ (by decide) (by decide) (by simp) (by simp)
    (by simp)]
  simp [hermiteValue, hornerAt, ddAt, zAt]
  norm_num

/-- C3: with `num_sample_points = 1` the routine returns the first-order Taylor estimate
`s0 + d0 * (target_time - t0)` built from the first time, sample and derivative. -/
theorem hermite_single_point (target_time t0 : K) (s0 d0 : V) (ts : List K) (ss ds : List V) :
    HermiteInterpolateAndSolve target_time 1 (t0 :: ts) (s0 :: ss) (d0 :: ds) =
      .ok (s0 + (target_time - t0) • d0) := by
  rw [HermiteInterpolateAndSolve_eq_ok _ _ _ _ _ (le_refl 1) (by decide) (by simp) (by simp)
    (by simp)]
  simp [hermiteValue, hornerAt, ddAt, zAt, add_comm]

/-- C4 as stated fails: with `times = [1, 1]` the routine returns a value. -/
theorem hermite_duplicate_times_returns :
    ∃ v : ℚ, HermiteInterpolateAndSolve (0 : ℚ) 2 [1, 1] [(1 : ℚ), 2] [0, 0] = .ok v :=
  ⟨_, HermiteInterpolateAndSolve_eq_ok _ _ _ _ _ (by decide) (by decide) (by simp) (by simp)
    (by simp)⟩

/-- C4, amended: when two of the first `num_sample_points` times coincide and the three
sequences are long enough, the routine raises no error and returns a value. -/
theorem hermite_duplicate_times_no_error (target_time : K) (n : Nat) (times : List K)
    (samples derivatives : List V) (h2n : 2 * n < UINT_RANGE)
    (ht : n ≤ times.length) (hs : n ≤ samples.length) (hd : n ≤ derivatives.length)
    (hdup : ∃ i j, i < j ∧ j < n ∧ times[i]? = times[j]?) :
    ∃ v : V, HermiteInterpolateAndSolve target_time n times samples derivatives = .ok v := by
  obtain ⟨i, j, hij, hj, _⟩ := hdup
  exact ⟨_, HermiteInterpolateAndSolve_eq_ok target_time n times samples derivatives
    (by omega) h2n ht hs hd⟩

theorem hermite_duplicate_times_no_error_witness :
    ∃ v : ℚ, HermiteInterpolateAndSolve (5 : ℚ) 3 [2, 7, 2] [(1 : ℚ), 2, 3] [4, 5, 6] = .ok v :=
  hermite_duplicate_times_no_error (5 : ℚ) 3 [2, 7, 2] [(1 : ℚ), 2, 3] [4, 5, 6] (by decide)
    (by simp) (by simp) (by simp) ⟨0, 2, by decide, by decide, by simp⟩

/-- C5: when `times` or `samples` has fewer than `num_sample_points` entries, the call ends
in an assertion failure and returns no value. -/
theorem hermite_short_input_asserts (target_time : K) (n : Nat) (times : List K)
    (samples derivatives : List V) (h : times.length < n ∨ samples.length < n) :
    HermiteInterpolateAndSolve target_time n times samples derivatives =
      .error Failure.assertion := by
  unfold HermiteInterpolateAndSolve
  by_cases ht : times.length ≥ n
  · have hs : ¬ samples.length ≥ n := by omega
    simp only [ht, hs, not_true_eq_false, not_false_eq_true, if_true, if_false]
    rfl
  · simp only [ht, not_false_eq_true, if_true]
    rfl

theorem hermite_short_input_asserts_witness :
    HermiteInterpolateAndSolve (0 : ℚ) 2 [1] [(3 : ℚ), 4] [5, 6] = .error Failure.assertion :=
  hermite_short_input_asserts (0 : ℚ) 2 [1] [(3 : ℚ), 4] [5, 6] (Or.inl (by decide))

/-- C6, what the code does: when `derivatives` has fewer than `num_sample_points` entries
while `times` and `samples` are long enough, no assertion fires; the seeding loop reads
`derivatives` past its end. -/
theorem hermite_short_derivatives_out_of_range (target_time : K) (n : Nat) (times : List K)
    (samples derivatives : List V) (h2n : 2 * n < UINT_RANGE)
    (ht : n ≤ times.length) (hs : n ≤ samples.length) (hd : derivatives.length < n) :
    HermiteInterpolateAndSolve target_time n times samples derivatives =
      .error Failure.outOfRange := by
  obtain ⟨st1, h1, hF1, -⟩ := foldlM_range'_inv (seedStep times samples derivatives)
    (fun k st => st.space_differences.Holds (2 * n) (2 * n) (seeded k)
        (fun a b => ddAt times samples derivatives b a) ∧
      st.time_differences.Holds (2 * n) 1 (timed k) (fun a _ => zAt times a))
    derivatives.length 0 ⟨Mat.create (2 * n) (2 * n), Mat.create (2 * n) 1⟩
    ⟨(Mat.Holds.create _ _ _).congr (fun a b => by simp [seeded]),
      (Mat.Holds.create _ _ _).congr (fun a b => by simp [timed])⟩
    (fun k st _ hk hP =>
      seedStep_spec n times samples derivatives h2n k (by omega) (by omega) (by omega)
        (by omega) st hP.1 hP.2)
  rw [Nat.zero_add] at hF1
  have hfail := seedStep_derivatives_short n times samples derivatives h2n derivatives.length
    hd (by omega) (le_refl _) st1 hF1
  have hsplit : List.range n =
      List.range' 0 derivatives.length ++
        (derivatives.length :: List.range' (derivatives.length + 1)
          (n - derivatives.length - 1)) := by
    have e : n = (n - derivatives.length - 1 + 1) + derivatives.length := by omega
    rw [List.range_eq_range', ← List.range'_succ]
    conv_lhs => rw [e]
    rw [← List.range'_append_1 0 derivatives.length (n - derivatives.length - 1 + 1),
      Nat.zero_add]
  have a1 : ¬ ¬ times.length ≥ n := fun h => h ht
  have a2 : ¬ ¬ samples.length ≥ n := fun h => h hs
  simp only [HermiteInterpolateAndSolve, a1, a2, if_false, fillTables, umul_eq h2n, hsplit,
    List.foldlM_append, h1, bind_ok, List.foldlM_cons, hfail, bind_error]
  rfl

theorem hermite_short_derivatives_out_of_range_witness :
    HermiteInterpolateAndSolve (0 : ℚ) 1 [0] [(0 : ℚ)] [] = .error Failure.outOfRange :=
  hermite_short_derivatives_out_of_range (0 : ℚ) 1 [0] [(0 : ℚ)] [] (by decide) (by simp)
    (by simp) (by simp)

end HermiteClaims

/-! # Properties of `ComputeInitialSamples` -/

section BootstrapClaims

variable {σ R K P : Type} [Field R] [Field K] [Algebra R K]

/-- C7: when `ComputeInitialSamples` returns `Success`, `times[i]` is
`start_time * sample_factor ^ i` for every `i` below the number of sample points, and
`samples[0]` is the start point. -/
theorem computeInitialSamples_geometric_times [Inhabited P] (es : config.Endgame R)
    (tr : Tracker σ K P) (start_time : K) (x_endgame : P) (times : List K) (samples : List P)
    (st : SampleState σ K P)
    (h : ComputeInitialSamples es tr start_time x_endgame times samples =
      .ok (SuccessCode.Success, st)) :
    (∀ i, i < es.num_sample_points →
      st.times[i]? = some (start_time * algebraMap R K es.sample_factor ^ i)) ∧
    st.samples[0]? = some x_endgame := by
  obtain ⟨⟨-, -, -, -, htimes, hs0, -, -⟩, hpost⟩ :=
    returns_spec es tr start_time x_endgame times samples _ st h
  rcases hpost with ⟨-, hlen, -⟩ | ⟨hne, -⟩
  · exact ⟨fun i hi => htimes i (by omega), hs0⟩
  · exact absurd rfl hne

theorem computeInitialSamples_geometric_times_witness :
    ∃ st : SampleState Nat ℚ Nat,
      ComputeInitialSamples (⟨4, (1 / 2 : ℚ)⟩ : config.Endgame ℚ) (stubTracker ℚ 0)
        (1 / 10 : ℚ) 7 [] [] = .ok (SuccessCode.Success, st) ∧
      st.times = [1 / 10, 1 / 20, 1 / 40, 1 / 80] ∧
      ((∀ i, i < 4 → st.times[i]? = some ((1 / 10 : ℚ) * algebraMap ℚ ℚ (1 / 2) ^ i)) ∧
        st.samples[0]? = some 7) := by
  have h : ComputeInitialSamples (⟨4, (1 / 2 : ℚ)⟩ : config.Endgame ℚ) (stubTracker ℚ 0)
      (1 / 10 : ℚ) 7 [] [] =
      .ok (SuccessCode.Success,
        ⟨[1 / 10, 1 / 20, 1 / 40, 1 / 80], [7, 8, 9, 10], { stubTracker ℚ 0 with state := 3 },
          [⟨1 / 10, 1 / 20, 7, .Success, 8⟩, ⟨1 / 20, 1 / 40, 8, .Success, 9⟩,
            ⟨1 / 40, 1 / 80, 9, .Success, 10⟩]⟩) := by
    simp [ComputeInitialSamples, sampleLoop, sampleStep, resize, assignAt, index, stubTracker,
      List.range', bind, Except.bind, pure, Except.pure]
    norm_num
  exact ⟨_, h, rfl, computeInitialSamples_geometric_times _ _ _ _ _ _ _ h⟩

/-- C8 as stated fails: started at time `0` with sample factor `1 / 2`, the call returns
`Success` with two times of equal modulus. -/
theorem computeInitialSamples_zero_start_not_decreasing :
    ∃ (st : SampleState Nat ℂ Nat) (a b : ℂ),
      ComputeInitialSamples (⟨2, (1 / 2 : ℝ)⟩ : config.Endgame ℝ) (stubTracker ℂ 0)
        (0 : ℂ) 7 [] [] = .ok (SuccessCode.Success, st) ∧
      (0 : ℝ) < 1 / 2 ∧ (1 / 2 : ℝ) < 1 ∧
      st.times[0]? = some a ∧ st.times[1]? = some b ∧ ¬ ‖b‖ < ‖a‖ := by
  have h : ComputeInitialSamples (⟨2, (1 / 2 : ℝ)⟩ : config.Endgame ℝ) (stubTracker ℂ 0)
      (0 : ℂ) 7 [] [] =
      .ok (SuccessCode.Success,
        ⟨[0, 0], [7, 8], { stubTracker ℂ 0 with state := 1 }, [⟨0, 0, 7, .Success, 8⟩]⟩) := by
    simp [ComputeInitialSamples, sampleLoop, sampleStep, resize, assignAt, index, stubTracker,
      List.range', bind, Except.bind, pure, Except.pure]
  exact ⟨_, 0, 0, h, by norm_num, by norm_num, rfl, rfl, lt_irrefl _⟩

/-- C8, amended: for a start time other than `0` and a sample factor strictly between `0`
and `1`, when `ComputeInitialSamples` returns `Success` both output sequences have exactly
`num_sample_points` entries and the moduli of the times are strictly decreasing. -/
theorem computeInitialSamples_moduli_decreasing {σ K P : Type} [NormedField K]
    [NormedAlgebra ℝ K] [Inhabited P] (es : config.Endgame ℝ) (tr : Tracker σ K P)
    (start_time : K) (x_endgame : P) (times : List K) (samples : List P)
    (st : SampleState σ K P) (h0 : start_time ≠ 0)
    (hpos : 0 < es.sample_factor) (hlt : es.sample_factor < 1)
    (h : ComputeInitialSamples es tr start_time x_endgame times samples =
      .ok (SuccessCode.Success, st)) :
    st.times.length = es.num_sample_points ∧ st.samples.length = es.num_sample_points ∧
    ∀ i a b, i + 1 < es.num_sample_points → st.times[i]? = some a →
      st.times[i + 1]? = some b → ‖b‖ < ‖a‖ := by
  obtain ⟨⟨hT, hS, -, -, htimes, -, -, -⟩, hpost⟩ :=
    returns_spec es tr start_time x_endgame times samples _ st h
  rcases hpost with ⟨-, hlen, -⟩ | ⟨hne, -⟩
  · refine ⟨hT, hS, fun i a b hi ha hb => ?_⟩
    rw [htimes i (by omega)] at ha
    rw [htimes (i + 1) (by omega)] at hb
    obtain rfl := Option.some.inj ha
    obtain rfl := Option.some.inj hb
    have hq : ‖algebraMap ℝ K es.sample_factor‖ = es.sample_factor := by
      rw [norm_algebraMap', Real.norm_eq_abs, abs_of_pos hpos]
    have h0' : 0 < ‖start_time‖ := norm_pos_iff.2 h0
    rw [norm_mul, norm_mul, norm_pow, norm_pow, hq, pow_succ]
    have hp : 0 < es.sample_factor ^ i := pow_pos hpos i
    have hstep : es.sample_factor ^ i * es.sample_factor < es.sample_factor ^ i :=
      mul_lt_of_lt_one_right hp hlt
    exact mul_lt_mul_of_pos_left hstep h0'
  · exact absurd rfl hne

theorem computeInitialSamples_moduli_decreasing_witness :
    ∃ st : SampleState Nat ℂ Nat,
      ComputeInitialSamples (⟨3, (1 / 2 : ℝ)⟩ : config.Endgame ℝ) (stubTracker ℂ 0)
        (1 : ℂ) 7 [] [] = .ok (SuccessCode.Success, st) ∧
      (st.times.length = 3 ∧ st.samples.length = 3 ∧
        ∀ i a b, i + 1 < 3 → st.times[i]? = some a → st.times[i + 1]? = some b → ‖b‖ < ‖a‖) := by
  have h : ComputeInitialSamples (⟨3, (1 / 2 : ℝ)⟩ : config.Endgame ℝ) (stubTracker ℂ 0)
      (1 : ℂ) 7 [] [] =
      .ok (SuccessCode.Success,
        ⟨[1, 1 / 2, 1 / 4], [7, 8, 9], { stubTracker ℂ 0 with state := 2 },
          [⟨1, 1 / 2, 7, .Success, 8⟩, ⟨1 / 2, 1 / 4, 8, .Success, 9⟩]⟩) := by
    simp [ComputeInitialSamples, sampleLoop, sampleStep, resize, assignAt, index, stubTracker,
      List.range', bind, Except.bind, pure, Except.pure]
    norm_num
  exact ⟨_, h, computeInitialSamples_moduli_decreasing
    (⟨3, (1 / 2 : ℝ)⟩ : config.Endgame ℝ) (stubTracker ℂ 0) (1 : ℂ) 7 [] [] _
    one_ne_zero (by norm_num) (by norm_num) h⟩

end BootstrapClaims

/-! # The calls made by `ComputeInitialSamples` -/

theorem bind_eq_ok {α β : Type} (x : Except Failure α) (f : α → Except Failure β) (b : β)
    (h : (x >>= f) = .ok b) : ∃ a, x = .ok a ∧ f a = .ok b := by
  cases x with
  | error e => exact Except.noConfusion h
  | ok a => exact ⟨a, rfl, h⟩

theorem replays_append {σ K P : Type} (track : σ → P → K → K → P → SuccessCode × P × σ) :
    ∀ (xs ys : List (Invocation K P)) (s s1 s2 : σ),
      Replays track s xs s1 → Replays track s1 ys s2 → Replays track s (xs ++ ys) s2 := by
  intro xs
  induction xs with
  | nil =>
    intro ys s s1 s2 h1 h2
    have e : s1 = s := h1
    subst e
    exact h2
  | cons c cs ih =>
    intro ys s s1 s2 h1 h2
    obtain ⟨out, t, hc, hrest⟩ := h1
    exact ⟨out, t, hc, ih ys t s1 s2 hrest h2⟩

section Trace

variable {σ R K P : Type} [Field R] [Field K] [Algebra R K]

/-- A round of the sampling loop that ends records exactly one call, and that call is a
call of the tracker in its current state. -/
theorem sampleStep_trace (es : config.Endgame R) (st st' : SampleState σ K P) (ii : Nat)
    (code : SuccessCode) (h : sampleStep es st ii = .ok (code, st')) :
    ∃ c out s1, st'.calls = st.calls ++ [c] ∧ c.status = code ∧
      st.tracker_.TrackPath st.tracker_.state out c.start_time c.end_time c.start_point =
        (c.status, c.solution, s1) ∧
      st'.tracker_.state = s1 ∧ st'.tracker_.TrackPath = st.tracker_.TrackPath := by
  unfold sampleStep at h
  obtain ⟨previous, -, h⟩ := bind_eq_ok _ _ _ h
  obtain ⟨times, -, h⟩ := bind_eq_ok _ _ _ h
  obtain ⟨out, -, h⟩ := bind_eq_ok _ _ _ h
  obtain ⟨start_time, -, h⟩ := bind_eq_ok _ _ _ h
  obtain ⟨end_time, -, h⟩ := bind_eq_ok _ _ _ h
  obtain ⟨start_point, -, h⟩ := bind_eq_ok _ _ _ h
  rcases hcall : st.tracker_.TrackPath st.tracker_.state out start_time end_time start_point
    with ⟨status, solution, s1⟩
  rw [hcall] at h
  obtain ⟨samples, -, h⟩ := bind_eq_ok _ _ _ h
  have e := Except.ok.inj h
  have e1 : status = code := congrArg Prod.fst e
  have e2 := congrArg Prod.snd e
  simp only at e2
  subst e1 e2
  exact ⟨⟨start_time, end_time, start_point, status, solution⟩, out, s1, rfl, rfl, hcall, rfl,
    rfl⟩

/-- The calls recorded by a sampling loop that ends are successive calls of the tracker,
appended in the order in which they were made. -/
theorem sampleLoop_trace (es : config.Endgame R) :
    ∀ (l : List Nat) (st st' : SampleState σ K P) (code : SuccessCode),
      sampleLoop es l st = .ok (code, st') →
      ∃ made, st'.calls = st.calls ++ made ∧
        Replays st.tracker_.TrackPath st.tracker_.state made st'.tracker_.state ∧
        st'.tracker_.TrackPath = st.tracker_.TrackPath := by
  intro l
  induction l with
  | nil =>
    intro st st' code h
    have e := Except.ok.inj h
    have e2 : st = st' := congrArg Prod.snd e
    subst e2
    exact ⟨[], by simp, rfl, rfl⟩
  | cons ii rest ih =>
    intro st st' code h
    unfold sampleLoop at h
    obtain ⟨⟨code1, st1⟩, hstep, h⟩ := bind_eq_ok _ _ _ h
    obtain ⟨c, out, s1, hcalls, -, hcall, hs1, htr⟩ := sampleStep_trace es st st1 ii code1 hstep
    have hone : Replays st.tracker_.TrackPath st.tracker_.state [c] st1.tracker_.state :=
      ⟨out, s1, hcall, hs1⟩
    by_cases hcode : code1 = SuccessCode.Success
    · simp only [hcode, ne_eq, not_true_eq_false, if_false] at h
      obtain ⟨made, hmade, hrep, htr'⟩ := ih st1 st' code h
      refine ⟨c :: made, by rw [hmade, hcalls]; simp, ?_, by rw [htr', htr]⟩
      rw [htr] at hrep
      exact replays_append _ [c] made _ _ _ hone hrep
    · simp only [ne_eq, hcode, not_false_eq_true, if_true] at h
      have e := Except.ok.inj h
      have e2 : st1 = st' := congrArg Prod.snd e
      subst e2
      exact ⟨[c], hcalls, hone, htr⟩

/-- The calls recorded by a run of `ComputeInitialSamples` are successive calls of the
tracker it was given, started in that tracker's state. -/
theorem ComputeInitialSamples_trace [Inhabited P] (es : config.Endgame R)
    (tr : Tracker σ K P) (start_time : K) (x_endgame : P) (times : List K) (samples : List P)
    (code : SuccessCode) (st : SampleState σ K P)
    (h : ComputeInitialSamples es tr start_time x_endgame times samples = .ok (code, st)) :
    Replays tr.TrackPath tr.state st.calls st.tracker_.state ∧
      st.tracker_.TrackPath = tr.TrackPath := by
  unfold ComputeInitialSamples at h
  obtain ⟨samples1, -, h⟩ := bind_eq_ok _ _ _ h
  obtain ⟨times1, -, h⟩ := bind_eq_ok _ _ _ h
  obtain ⟨made, hmade, hrep, htr⟩ := sampleLoop_trace es _ _ st code h
  simp only [List.nil_append] at hmade
  rw [hmade]
  exact ⟨hrep, htr⟩

end Trace

section TraceClaims

variable {σ R K P : Type} [Field R] [Field K] [Algebra R K]

/-- C9: for a positive number of sample points, `ComputeInitialSamples` returns a status.
The calls it records are calls of the given tracker, made one after the other from the
tracker's state; call `j + 1` goes from `start_time * sample_factor ^ j` and the sample
`samples[j]` to `start_time * sample_factor ^ (j + 1)`, its result is `samples[j + 1]`, and
`samples[0]` is the start point. The returned status is `Success` exactly when
`num_sample_points - 1` such calls were made and every one returned `Success`; otherwise it
is the status of the first call that did not return `Success`, which is the last call made.
-/
theorem computeInitialSamples_status [Inhabited P] (es : config.Endgame R)
    (tr : Tracker σ K P) (start_time : K) (x_endgame : P) (times : List K) (samples : List P)
    (hn : 1 ≤ es.num_sample_points) :
    ∃ (code : SuccessCode) (st : SampleState σ K P),
      ComputeInitialSamples es tr start_time x_endgame times samples = .ok (code, st) ∧
      Replays tr.TrackPath tr.state st.calls st.tracker_.state ∧
      st.samples[0]? = some x_endgame ∧
      (∀ j c, st.calls[j]? = some c →
        c.start_time = start_time * algebraMap R K es.sample_factor ^ j ∧
        c.end_time = start_time * algebraMap R K es.sample_factor ^ (j + 1) ∧
        st.samples[j]? = some c.start_point ∧ st.samples[j + 1]? = some c.solution) ∧
      (code = SuccessCode.Success ↔
        (st.calls.length = es.num_sample_points - 1 ∧
          ∀ c ∈ st.calls, c.status = SuccessCode.Success)) ∧
      (code ≠ SuccessCode.Success →
        ∃ k c, st.calls[k]? = some c ∧ c.status = code ∧
          (∀ j c', j < k → st.calls[j]? = some c' → c'.status = SuccessCode.Success) ∧
          st.calls.length = k + 1) := by
  obtain ⟨code, st, h, ⟨-, -, -, -, -, hs0, hcalls, hprev⟩, hpost⟩ :=
    ComputeInitialSamples_spec es tr start_time x_endgame times samples hn
  have htrace := (ComputeInitialSamples_trace es tr start_time x_endgame times samples _ st h).1
  refine ⟨code, st, h, htrace, hs0, hcalls, ?_, ?_⟩
  · rcases hpost with ⟨hs, hlen, hall⟩ | ⟨hne, c, hlast, hc⟩
    · exact ⟨fun _ => ⟨by omega, hall⟩, fun _ => hs⟩
    · refine ⟨fun hs => absurd hs hne, fun hall => ?_⟩
      have hmem : c ∈ st.calls := List.mem_of_mem_getLast? hlast
      exact absurd (hc ▸ hall.2 c hmem) hne
  · intro hne
    rcases hpost with ⟨hs, -, -⟩ | ⟨-, c, hlast, hc⟩
    · exact absurd hs hne
    · have hpos : 0 < st.calls.length := by
        rcases hl : st.calls with _ | ⟨a, l⟩
        · rw [hl] at hlast; simp at hlast
        · simp
      rw [List.getLast?_eq_getElem?] at hlast
      refine ⟨st.calls.length - 1, c, hlast, hc, fun j c' hj hc' => ?_, by omega⟩
      exact hprev j c' hc' (by omega)

theorem computeInitialSamples_status_witness :
    ∃ st : SampleState Nat ℚ Nat,
      ComputeInitialSamples (⟨4, (1 / 2 : ℚ)⟩ : config.Endgame ℚ) (stubTracker ℚ 2)
        (1 / 10 : ℚ) 7 [] [] = .ok (SuccessCode.Other 1, st) ∧
      st.calls = [⟨1 / 10, 1 / 20, 7, .Success, 8⟩, ⟨1 / 20, 1 / 40, 8, .Other 1, 9⟩] ∧
      st.samples = [7, 8, 9, 0] ∧
      Replays (stubTracker ℚ 2).TrackPath (stubTracker ℚ 2).state st.calls st.tracker_.state ∧
      st.samples[0]? = some 7 ∧
      (∀ j c, st.calls[j]? = some c →
        c.start_time = (1 / 10 : ℚ) * algebraMap ℚ ℚ (1 / 2) ^ j ∧
        c.end_time = (1 / 10 : ℚ) * algebraMap ℚ ℚ (1 / 2) ^ (j + 1) ∧
        st.samples[j]? = some c.start_point ∧ st.samples[j + 1]? = some c.solution) ∧
      (SuccessCode.Other 1 = SuccessCode.Success ↔
        (st.calls.length = 4 - 1 ∧ ∀ c ∈ st.calls, c.status = SuccessCode.Success)) ∧
      (SuccessCode.Other 1 ≠ SuccessCode.Success →
        ∃ k c, st.calls[k]? = some c ∧ c.status = SuccessCode.Other 1 ∧
          (∀ j c', j < k → st.calls[j]? = some c' → c'.status = SuccessCode.Success) ∧
          st.calls.length = k + 1) := by
  have h : ComputeInitialSamples (⟨4, (1 / 2 : ℚ)⟩ : config.Endgame ℚ) (stubTracker ℚ 2)
      (1 / 10 : ℚ) 7 [] [] =
      .ok (SuccessCode.Other 1,
        ⟨[1 / 10, 1 / 20, 1 / 40, 0], [7, 8, 9, 0], { stubTracker ℚ 2 with state := 2 },
          [⟨1 / 10, 1 / 20, 7, .Success, 8⟩, ⟨1 / 20, 1 / 40, 8, .Other 1, 9⟩]⟩) := by
    simp [ComputeInitialSamples, sampleLoop, sampleStep, resize, assignAt, index, stubTracker,
      List.range', bind, Except.bind, pure, Except.pure]
    norm_num
  obtain ⟨code, st, hrun, hfacts⟩ := computeInitialSamples_status
    (⟨4, (1 / 2 : ℚ)⟩ : config.Endgame ℚ) (stubTracker ℚ 2) (1 / 10 : ℚ) 7 [] [] (by decide)
  rw [h] at hrun
  have e := Except.ok.inj hrun
  have e1 : SuccessCode.Other 1 = code := congrArg Prod.fst e
  have e2 := congrArg Prod.snd e
  simp only at e2
  subst e1 e2
  exact ⟨_, h, rfl, rfl, hfacts⟩

/-- C11: when `ComputeInitialSamples` returns `Success`, it has made `num_sample_points - 1`
tracker calls, one after the other, each in the tracker state its predecessor left; the
`i`-th call went from `(times[i-1], samples[i-1])` to `times[i]`, returned `Success`, and
its result is `samples[i]`; `samples[0]` is the start point. -/
theorem computeInitialSamples_tracks_in_order [Inhabited P] (es : config.Endgame R)
    (tr : Tracker σ K P) (start_time : K) (x_endgame : P) (times : List K) (samples : List P)
    (st : SampleState σ K P)
    (h : ComputeInitialSamples es tr start_time x_endgame times samples =
      .ok (SuccessCode.Success, st)) :
    st.calls.length = es.num_sample_points - 1 ∧
    Replays tr.TrackPath tr.state st.calls st.tracker_.state ∧
    st.samples[0]? = some x_endgame ∧
    ∀ i, 1 ≤ i → i < es.num_sample_points →
      ∃ c, st.calls[i - 1]? = some c ∧ c.status = SuccessCode.Success ∧
        st.times[i - 1]? = some c.start_time ∧ st.samples[i - 1]? = some c.start_point ∧
        st.times[i]? = some c.end_time ∧ st.samples[i]? = some c.solution := by
  obtain ⟨⟨-, -, -, -, htimes, hs0, hcalls, -⟩, hpost⟩ :=
    returns_spec es tr start_time x_endgame times samples _ st h
  have htrace := (ComputeInitialSamples_trace es tr start_time x_endgame times samples _ st h).1
  rcases hpost with ⟨-, hlen, hall⟩ | ⟨hne, -⟩
  · refine ⟨by omega, htrace, hs0, fun i hi1 hin => ?_⟩
    obtain ⟨c, hc⟩ : ∃ a, st.calls[i - 1]? = some a := exists_getElem? (by omega)
    obtain ⟨h1, h2, h3, h4⟩ := hcalls (i - 1) c hc
    rw [Nat.sub_add_cancel hi1] at h2 h4
    refine ⟨c, hc, hall c (List.getElem?_mem hc), ?_, h3, ?_, h4⟩
    · rw [h1]; exact htimes (i - 1) (by omega)
    · rw [h2]; exact htimes i (by omega)
  · exact absurd rfl hne

theorem computeInitialSamples_tracks_in_order_witness :
    ∃ st : SampleState Nat ℚ Nat,
      ComputeInitialSamples (⟨3, (1 / 2 : ℚ)⟩ : config.Endgame ℚ) (stubTracker ℚ 0)
        (1 : ℚ) 4 [] [] = .ok (SuccessCode.Success, st) ∧
      st.samples = [4, 5, 6] ∧
      (st.calls.length = 3 - 1 ∧
        Replays (stubTracker ℚ 0).TrackPath (stubTracker ℚ 0).state st.calls
          st.tracker_.state ∧
        st.samples[0]? = some 4 ∧
        ∀ i, 1 ≤ i → i < 3 →
          ∃ c, st.calls[i - 1]? = some c ∧ c.status = SuccessCode.Success ∧
            st.times[i - 1]? = some c.start_time ∧ st.samples[i - 1]? = some c.start_point ∧
            st.times[i]? = some c.end_time ∧ st.samples[i]? = some c.solution) := by
  have h : ComputeInitialSamples (⟨3, (1 / 2 : ℚ)⟩ : config.Endgame ℚ) (stubTracker ℚ 0)
      (1 : ℚ) 4 [] [] =
      .ok (SuccessCode.Success,
        ⟨[1, 1 / 2, 1 / 4], [4, 5, 6], { stubTracker ℚ 0 with state := 2 },
          [⟨1, 1 / 2, 4, .Success, 5⟩, ⟨1 / 2, 1 / 4, 5, .Success, 6⟩]⟩) := by
    simp [ComputeInitialSamples, sampleLoop, sampleStep, resize, assignAt, index, stubTracker,
      List.range', bind, Except.bind, pure, Except.pure]
    norm_num
  exact ⟨_, h, rfl, computeInitialSamples_tracks_in_order _ _ _ _ _ _ _ h⟩

/-- C12 as stated fails: with `num_sample_points = 0` the call does not end in a
precondition failure; it ends in the access to index `0` of the emptied sequence. -/
theorem computeInitialSamples_zero_points_not_rejected :
    ComputeInitialSamples (⟨0, (1 / 2 : ℚ)⟩ : config.Endgame ℚ) (stubTracker ℚ 0)
        (1 / 10 : ℚ) 7 [] [] = .error Failure.outOfRange ∧
    ComputeInitialSamples (⟨0, (1 / 2 : ℚ)⟩ : config.Endgame ℚ) (stubTracker ℚ 0)
        (1 / 10 : ℚ) 7 [] [] ≠ .error Failure.assertion := by
  have h := ComputeInitialSamples_zero (⟨0, (1 / 2 : ℚ)⟩ : config.Endgame ℚ) (stubTracker ℚ 0)
    (1 / 10 : ℚ) 7 [] [] rfl
  refine ⟨h, ?_⟩
  rw [h]
  intro e
  exact absurd (Except.error.inj e) (by decide)

/-- C12, amended: `ComputeInitialSamples` has no check of the number of sample points. No
call ends in a precondition failure, and with `num_sample_points = 1` the call is accepted:
it returns `Success` with the one time and the one sample it was given, without calling
the tracker. -/
theorem computeInitialSamples_no_precondition_check [Inhabited P] (es : config.Endgame R)
    (tr : Tracker σ K P) (start_time : K) (x_endgame : P) (times : List K)
    (samples : List P) :
    ComputeInitialSamples es tr start_time x_endgame times samples ≠
        .error Failure.assertion ∧
    (es.num_sample_points = 1 →
      ComputeInitialSamples es tr start_time x_endgame times samples =
        .ok (SuccessCode.Success, ⟨[start_time], [x_endgame], tr, []⟩)) := by
  constructor
  · by_cases hn : es.num_sample_points = 0
    · rw [ComputeInitialSamples_zero es tr start_time x_endgame times samples hn]
      intro e
      exact absurd (Except.error.inj e) (by decide)
    · obtain ⟨code, st, h, -⟩ := ComputeInitialSamples_spec es tr start_time x_endgame times
        samples (by omega)
      rw [h]
      intro e
      exact Except.noConfusion e
  · intro hn
    cases times <;> cases samples <;>
      simp [ComputeInitialSamples, hn, resize, assignAt, sampleLoop, bind, Except.bind, pure,
        Except.pure]

theorem computeInitialSamples_no_precondition_check_witness :
    ComputeInitialSamples (⟨1, (1 / 2 : ℚ)⟩ : config.Endgame ℚ) (stubTracker ℚ 0)
        (1 / 10 : ℚ) 7 [3, 4] [] ≠ .error Failure.assertion ∧
    ComputeInitialSamples (⟨1, (1 / 2 : ℚ)⟩ : config.Endgame ℚ) (stubTracker ℚ 0)
        (1 / 10 : ℚ) 7 [3, 4] [] =
      .ok (SuccessCode.Success, ⟨[1 / 10], [7], stubTracker ℚ 0, []⟩) :=
  ⟨(computeInitialSamples_no_precondition_check (⟨1, (1 / 2 : ℚ)⟩ : config.Endgame ℚ)
      (stubTracker ℚ 0) (1 / 10 : ℚ) 7 [3, 4] []).1,
    (computeInitialSamples_no_precondition_check (⟨1, (1 / 2 : ℚ)⟩ : config.Endgame ℚ)
      (stubTracker ℚ 0) (1 / 10 : ℚ) 7 [3, 4] []).2 rfl⟩

end TraceClaims

/-! # Properties of the state of `EndgameBase` -/

section StateClaims

variable {TrackerType R Tol Sec dbl mpfr : Type}

/-- C13 as stated fails: incrementing a fresh endgame by `4294967295` and then by `1` leaves
the cycle number `0`, not `4294967296`. -/
theorem cycleNumber_sum_wraps :
    (((EndgameBase.construct () ((⟨3, (1 / 2 : ℚ)⟩ : config.Endgame ℚ), (), ()) :
        EndgameBase Unit ℚ Unit Unit ℚ ℚ).IncrementCycleNumber 4294967295).IncrementCycleNumber
      1).CycleNumber = 0 := by
  decide

/-- C13, amended: a freshly constructed endgame has cycle number `0`; incrementing it by `a`
and then by `b` makes the cycle number `(a + b) mod 2 ^ 32`, which is `a + b` when
`a + b < 2 ^ 32` (so `3` then `2` gives `5`); and setting the cycle number to `c` makes it
`c`, whatever it was. -/
theorem cycleNumber_bookkeeping (tr : TrackerType) (settings : config.Endgame R × Sec × Tol)
    (e : EndgameBase TrackerType R Tol Sec dbl mpfr) (a b c : Nat) :
    (EndgameBase.construct tr settings :
        EndgameBase TrackerType R Tol Sec dbl mpfr).CycleNumber = 0 ∧
    (((EndgameBase.construct tr settings :
        EndgameBase TrackerType R Tol Sec dbl mpfr).IncrementCycleNumber a).IncrementCycleNumber
      b).CycleNumber = (a + b) % UINT_RANGE ∧
    (a + b < UINT_RANGE →
      (((EndgameBase.construct tr settings :
          EndgameBase TrackerType R Tol Sec dbl mpfr).IncrementCycleNumber
        a).IncrementCycleNumber b).CycleNumber = a + b) ∧
    (e.SetCycleNumber c).CycleNumber = c := by
  have h : (((EndgameBase.construct tr settings :
      EndgameBase TrackerType R Tol Sec dbl mpfr).IncrementCycleNumber a).IncrementCycleNumber
      b).CycleNumber = (a + b) % UINT_RANGE := by
    simp only [EndgameBase.CycleNumber, EndgameBase.IncrementCycleNumber,
      EndgameBase.construct, uadd, Nat.zero_add, Nat.mod_add_mod]
  exact ⟨rfl, h, fun hab => by rw [h, Nat.mod_eq_of_lt hab], rfl⟩

theorem cycleNumber_bookkeeping_witness :
    (((EndgameBase.construct () ((⟨3, (1 / 2 : ℚ)⟩ : config.Endgame ℚ), (), ()) :
        EndgameBase Unit ℚ Unit Unit ℚ ℚ).IncrementCycleNumber 3).IncrementCycleNumber
      2).CycleNumber = 3 + 2 ∧
    (((EndgameBase.construct () ((⟨3, (1 / 2 : ℚ)⟩ : config.Endgame ℚ), (), ()) :
        EndgameBase Unit ℚ Unit Unit ℚ ℚ).IncrementCycleNumber 3).SetCycleNumber
      10).CycleNumber = 10 :=
  ⟨(cycleNumber_bookkeeping () ((⟨3, (1 / 2 : ℚ)⟩ : config.Endgame ℚ), (), ())
      (EndgameBase.construct () ((⟨3, (1 / 2 : ℚ)⟩ : config.Endgame ℚ), (), ()) :
        EndgameBase Unit ℚ Unit Unit ℚ ℚ) 3 2 10).2.2.1 (by decide),
    (cycleNumber_bookkeeping () ((⟨3, (1 / 2 : ℚ)⟩ : config.Endgame ℚ), (), ())
      ((EndgameBase.construct () ((⟨3, (1 / 2 : ℚ)⟩ : config.Endgame ℚ), (), ()) :
        EndgameBase Unit ℚ Unit Unit ℚ ℚ).IncrementCycleNumber 3) 3 2 10).2.2.2⟩

/-- C14 as stated fails: in a state where only the low-precision approximation has been
stored, the request for the extended-precision one returns the empty vector. -/
theorem finalApproximation_unpopulated_returns_empty :
    EndgameBase.FinalApproximation_mpfr
      ({ final_approximation_at_origin_ := ([1, 2], []), cycle_number_ := 0,
          endgame_settings_ := ⟨3, 1 / 2⟩, tolerances_ := (), security_ := (),
          tracker_ := () } : EndgameBase Unit ℚ Unit Unit ℚ ℚ) = [] :=
  rfl

/-- C14, amended: the state holds a vector for each precision at all times. In every state
whose low-precision vector is `v` and whose extended-precision vector is still the empty
one it was constructed with, the request for the extended-precision approximation returns
the empty vector, with no error, and the request for the low-precision one returns `v`. -/
theorem finalApproximation_slots_independent
    (e : EndgameBase TrackerType R Tol Sec dbl mpfr) (v : List dbl)
    (h : e.final_approximation_at_origin_ = (v, [])) :
    e.FinalApproximation_mpfr = [] ∧ e.FinalApproximation_dbl = v := by
  simp only [EndgameBase.FinalApproximation_mpfr, EndgameBase.FinalApproximation_dbl, h,
    and_self]

theorem finalApproximation_slots_independent_witness :
    EndgameBase.FinalApproximation_mpfr
        ({ final_approximation_at_origin_ := ([5], []), cycle_number_ := 0,
            endgame_settings_ := ⟨3, 1 / 2⟩, tolerances_ := (), security_ := (),
            tracker_ := () } : EndgameBase Unit ℚ Unit Unit ℚ ℚ) = [] ∧
      EndgameBase.FinalApproximation_dbl
        ({ final_approximation_at_origin_ := ([5], []), cycle_number_ := 0,
            endgame_settings_ := ⟨3, 1 / 2⟩, tolerances_ := (), security_ := (),
            tracker_ := () } : EndgameBase Unit ℚ Unit Unit ℚ ℚ) = [5] :=
  finalApproximation_slots_independent _ [5] rfl

/-- C15: an endgame constructed from a tracker and the ordered triple of bundles
(endgame, security, tolerances) returns these bundles and that tracker from its getters,
and its cycle number is `0`. -/
theorem construct_getters (tr : TrackerType) (E : config.Endgame R) (S : Sec) (T : Tol) :
    (EndgameBase.construct tr (E, S, T) :
        EndgameBase TrackerType R Tol Sec dbl mpfr).EndgameSettings = E ∧
    (EndgameBase.construct tr (E, S, T) :
        EndgameBase TrackerType R Tol Sec dbl mpfr).SecuritySettings = S ∧
    (EndgameBase.construct tr (E, S, T) :
        EndgameBase TrackerType R Tol Sec dbl mpfr).Tolerances = T ∧
    (EndgameBase.construct tr (E, S, T) :
        EndgameBase TrackerType R Tol Sec dbl mpfr).GetTracker = tr ∧
    (EndgameBase.construct tr (E, S, T) :
        EndgameBase TrackerType R Tol Sec dbl mpfr).CycleNumber = 0 :=
  ⟨rfl, rfl, rfl, rfl, rfl⟩

/-- C16: each of the three setters replaces its own bundle, which the matching getter then
returns, and leaves the other two bundles, the cycle number, the final approximation and the
tracker as they were. -/
theorem setters_frame (e : EndgameBase TrackerType R Tol Sec dbl mpfr)
    (E : config.Endgame R) (S : Sec) (T : Tol) :
    ((e.SetEndgameSettings E).EndgameSettings = E ∧
      (e.SetEndgameSettings E).Tolerances = e.Tolerances ∧
      (e.SetEndgameSettings E).SecuritySettings = e.SecuritySettings ∧
      (e.SetEndgameSettings E).CycleNumber = e.CycleNumber ∧
      (e.SetEndgameSettings E).FinalApproximation_dbl = e.FinalApproximation_dbl ∧
      (e.SetEndgameSettings E).FinalApproximation_mpfr = e.FinalApproximation_mpfr ∧
      (e.SetEndgameSettings E).GetTracker = e.GetTracker) ∧
    ((e.SetSecuritySettings S).SecuritySettings = S ∧
      (e.SetSecuritySettings S).EndgameSettings = e.EndgameSettings ∧
      (e.SetSecuritySettings S).Tolerances = e.Tolerances ∧
      (e.SetSecuritySettings S).CycleNumber = e.CycleNumber ∧
      (e.SetSecuritySettings S).FinalApproximation_dbl = e.FinalApproximation_dbl ∧
      (e.SetSecuritySettings S).FinalApproximation_mpfr = e.FinalApproximation_mpfr ∧
      (e.SetSecuritySettings S).GetTracker = e.GetTracker) ∧
    ((e.SetToleranceSettings T).Tolerances = T ∧
      (e.SetToleranceSettings T).EndgameSettings = e.EndgameSettings ∧
      (e.SetToleranceSettings T).SecuritySettings = e.SecuritySettings ∧
      (e.SetToleranceSettings T).CycleNumber = e.CycleNumber ∧
      (e.SetToleranceSettings T).FinalApproximation_dbl = e.FinalApproximation_dbl ∧
      (e.SetToleranceSettings T).FinalApproximation_mpfr = e.FinalApproximation_mpfr ∧
      (e.SetToleranceSettings T).GetTracker = e.GetTracker) :=
  ⟨⟨rfl, rfl, rfl, rfl, rfl, rfl, rfl⟩, ⟨rfl, rfl, rfl, rfl, rfl, rfl, rfl⟩,
    ⟨rfl, rfl, rfl, rfl, rfl, rfl, rfl⟩⟩

end StateClaims

/-! # The table of `HermiteInterpolateAndSolve`: evaluation, accesses, divisors -/

theorem node_eq {K V : Type} [Field K] (n : Nat) (times : List K) (st : Tables K V)
    (hz : st.time_differences.Holds (2 * n) 1 (timed n) (fun a _ => zAt times a)) (k : Nat)
    (hk : k < 2 * n) : node st k = zAt times k := by
  simp [node, (hz.2.2 k 0).1 ⟨hk, rfl⟩]

theorem index_ok_lt {α : Type} {xs : List α} {i : Nat} {a : α} (h : index xs i = .ok a) :
    i < xs.length := by
  by_contra hlt
  rw [index_eq_error xs i (by omega)] at h
  exact Except.noConfusion h

theorem write_ok_inv {α : Type} {m m' : Mat α} {i j : Nat} {v : α}
    (h : m.write i j v = .ok m') :
    i < m.rows ∧ j < m.cols ∧ m'.rows = m.rows ∧ m'.cols = m.cols := by
  unfold Mat.write at h
  by_cases hij : i < m.rows ∧ j < m.cols
  · rw [if_pos hij] at h
    have e := Except.ok.inj h
    subst e
    exact ⟨hij.1, hij.2, rfl, rfl⟩
  · rw [if_neg hij] at h
    exact Except.noConfusion h

/-- A fold in the failure monad that ends has run every one of its iterations to its end,
each from a state in which the invariant `I` holds. -/
theorem foldlM_ok_mem {σ ι : Type} (f : σ → ι → Except Failure σ) (I : σ → Prop)
    (hI : ∀ a k b, I a → f a k = .ok b → I b) :
    ∀ (l : List ι) (s s' : σ), I s → l.foldlM f s = .ok s' →
      ∀ k ∈ l, ∃ a b, I a ∧ f a k = .ok b := by
  intro l
  induction l with
  | nil => intro s s' _ _ k hk; simp at hk
  | cons x xs ih =>
    intro s s' hs h k hk
    rw [List.foldlM_cons] at h
    obtain ⟨s1, h1, h2⟩ := bind_eq_ok _ _ _ h
    rcases List.mem_cons.1 hk with rfl | hk'
    · exact ⟨s, s1, hs, h1⟩
    · exact ih s1 s' (hI s x s1 hs h1) h2 k hk'

/-- What a round of the seeding loop that ends tells: the three sequences have an entry
`ii`, the row `2 * ii` (in `unsigned` arithmetic) is a row of the table, and the table keeps
its number of rows. -/
theorem seedStep_ok_inv {K V : Type} (times : List K) (samples derivatives : List V) (st st' : Tables K V)
    (ii : Nat) (h : seedStep times samples derivatives st ii = .ok st') :
    ii < times.length ∧ ii < samples.length ∧ ii < derivatives.length ∧
      umul 2 ii < st.space_differences.rows ∧
      st'.space_differences.rows = st.space_differences.rows := by
  unfold seedStep at h
  obtain ⟨s, hs, h⟩ := bind_eq_ok _ _ _ h
  obtain ⟨F1, hF1, h⟩ := bind_eq_ok _ _ _ h
  obtain ⟨s', -, h⟩ := bind_eq_ok _ _ _ h
  obtain ⟨F2, hF2, h⟩ := bind_eq_ok _ _ _ h
  obtain ⟨d, hd, h⟩ := bind_eq_ok _ _ _ h
  obtain ⟨F3, hF3, h⟩ := bind_eq_ok _ _ _ h
  obtain ⟨t, ht, h⟩ := bind_eq_ok _ _ _ h
  obtain ⟨z1, -, h⟩ := bind_eq_ok _ _ _ h
  obtain ⟨t', -, h⟩ := bind_eq_ok _ _ _ h
  obtain ⟨z2, -, h⟩ := bind_eq_ok _ _ _ h
  have e := Except.ok.inj h
  subst e
  have w1 := write_ok_inv hF1
  have w2 := write_ok_inv hF2
  have w3 := write_ok_inv hF3
  refine ⟨index_ok_lt ht, index_ok_lt hs, index_ok_lt hd, w1.1, ?_⟩
  show F3.rows = st.space_differences.rows
  rw [w3.2.2.1, w2.2.2.1, w1.2.2.1]

section TableClaims

variable {K V : Type} [Field K] [AddCommGroup V] [Module K V]

theorem diagonal_eq (n : Nat) (times : List K) (samples derivatives : List V)
    (st : Tables K V)
    (hF : st.space_differences.Holds (2 * n) (2 * n) (assigned n)
      (fun a b => ddAt times samples derivatives b a)) (k : Nat) (hk : k < 2 * n) :
    diagonal st k = ddAt times samples derivatives k k := by
  simp [diagonal, (hF.2.2 k k).1 ⟨hk, le_refl k⟩]

/-- C17, at the input of C1 (`n = 2`, `times = [0, 1]`, `samples = [0, 1]`,
`derivatives = [0, 3]`, `target_time = 2`): the table is filled, its Newton form and its
Horner fold are both `8`, and the routine returns `12`. -/
theorem hermite_not_newton_form :
    ∃ st : Tables ℚ ℚ, fillTables 2 [0, 1] [(0 : ℚ), 1] [0, 3] = .ok st ∧
      newtonForm (2 : ℚ) 2 st = 8 ∧ hornerForm (2 : ℚ) 2 st = 8 ∧
      HermiteInterpolateAndSolve (2 : ℚ) 2 [0, 1] [(0 : ℚ), 1] [0, 3] = .ok 12 := by
  obtain ⟨st, hfill, hF, hz⟩ := fillTables_spec 2 ([0, 1] : List ℚ) ([0, 1] : List ℚ) [0, 3]
    (by decide) (by simp) (by simp) (by simp)
  have d0 := diagonal_eq 2 _ _ _ st hF 0 (by decide)
  have d1 := diagonal_eq 2 _ _ _ st hF 1 (by decide)
  have d2 := diagonal_eq 2 _ _ _ st hF 2 (by decide)
  have d3 := diagonal_eq 2 _ _ _ st hF 3 (by decide)
  have z0 := node_eq 2 _ st hz 0 (by decide)
  have z1 := node_eq 2 _ st hz 1 (by decide)
  have z2 := node_eq 2 _ st hz 2 (by decide)
  refine ⟨st, hfill, ?_, ?_, ?_⟩
  · simp [newtonForm, List.range_succ, d0, d1, d2, d3, z0, z1, z2, ddAt, zAt]
    norm_num
  · simp [hornerForm, hornerFold, d0, d1, d2, d3, z0, z1, z2, ddAt, zAt]
    norm_num
  · rw [HermiteInterpolateAndSolve_eq_ok _ _ _ _ _ (by decide) (by decide) (by simp) (by simp)
      (by simp)]
    simp [hermiteValue, hornerAt, ddAt, zAt]
    norm_num

/-- A table construction that ends was started with sequences of at least
`num_sample_points` entries and with a table size `2 * num_sample_points` that fits an
`unsigned int`. -/
theorem fillTables_ok_imp (n : Nat) (times : List K) (samples derivatives : List V)
    (st : Tables K V) (h : fillTables n times samples derivatives = .ok st) :
    2 * n < UINT_RANGE ∧ n ≤ times.length ∧ n ≤ samples.length ∧ n ≤ derivatives.length := by
  unfold fillTables at h
  obtain ⟨st1, h1, -⟩ := bind_eq_ok _ _ _ h
  have hall := foldlM_ok_mem (seedStep times samples derivatives)
    (fun a : Tables K V => a.space_differences.rows = umul 2 n)
    (fun a k b ha hstep =>
      ((seedStep_ok_inv times samples derivatives a b k hstep).2.2.2.2).trans ha)
    (List.range n) _ st1 rfl h1
  have hlen : n ≤ times.length ∧ n ≤ samples.length ∧ n ≤ derivatives.length := by
    by_cases hn : n = 0
    · subst hn; simp
    · obtain ⟨a, b, -, hstep⟩ := hall (n - 1) (List.mem_range.2 (by omega))
      have := seedStep_ok_inv times samples derivatives a b (n - 1) hstep
      omega
  refine ⟨?_, hlen⟩
  by_contra hbig
  have hk : umul 2 n / 2 < n := by
    unfold umul UINT_RANGE
    unfold UINT_RANGE at hbig
    omega
  obtain ⟨a, b, ha, hstep⟩ := hall (umul 2 n / 2) (List.mem_range.2 hk)
  have hrow := (seedStep_ok_inv times samples derivatives a b _ hstep).2.2.2.1
  rw [ha] at hrow
  unfold umul UINT_RANGE at hrow
  omega

/-- C18 as stated fails: with `num_sample_points = 2 ^ 31` and three sequences of `2 ^ 31`
entries, the table size `2 * num_sample_points` wraps to `0` in `unsigned` arithmetic, and the
first assignment of the seeding loop, to row `0` column `0`, is outside the table. -/
theorem hermite_table_size_wraps :
    2147483648 ≤ (List.replicate 2147483648 (0 : ℚ)).length ∧
    umul 2 2147483648 = 0 ∧
    HermiteInterpolateAndSolve (0 : ℚ) 2147483648 (List.replicate 2147483648 (0 : ℚ))
        (List.replicate 2147483648 (0 : ℚ)) (List.replicate 2147483648 (0 : ℚ)) =
      .error Failure.outOfRange := by
  have hlen : 2147483648 ≤ (List.replicate 2147483648 (0 : ℚ)).length := by
    rw [List.length_replicate]
  have hsize : umul 2 2147483648 = 0 := by decide
  have hzero : umul 2 0 = 0 := by decide
  have hrange : List.range 2147483648 = 0 :: List.range' 1 2147483647 := by
    rw [List.range_eq_range']
    exact List.range'_succ 0 2147483647 1
  have hidx : index (List.replicate 2147483648 (0 : ℚ)) 0 = .ok 0 :=
    index_of_getElem? (by rw [List.getElem?_replicate]; rfl)
  have hstep : seedStep (List.replicate 2147483648 (0 : ℚ)) (List.replicate 2147483648 (0 : ℚ))
      (List.replicate 2147483648 (0 : ℚ))
      (⟨Mat.create 0 0, Mat.create 0 1⟩ : Tables ℚ ℚ) 0 = .error Failure.outOfRange := by
    simp only [seedStep, hidx, bind_ok, hzero]
    rfl
  have a1 : ¬ ¬ (List.replicate 2147483648 (0 : ℚ)).length ≥ 2147483648 := fun h => h hlen
  refine ⟨hlen, hsize, ?_⟩
  simp only [HermiteInterpolateAndSolve, a1, if_false, fillTables, hsize, hrange,
    List.foldlM_cons, hstep, bind_error]
  rfl

/-- C18, amended: when `num_sample_points = n ≥ 1`, the three sequences have at least `n` entries
and the table size `2 * n` is the size allocated (it fits an `unsigned int`), the table
construction and the evaluation both run to their end: no index leaves the `2n × 2n` table,
the `2n`-entry time vector or the input sequences, and no cell is read before it is
assigned. The cells assigned are those of the lower triangle; row `0` column `1` and the
cells with column above row are never assigned, hence never read. -/
theorem hermite_accesses_safe (target_time : K) (n : Nat) (times : List K)
    (samples derivatives : List V) (hn : 1 ≤ n) (h2n : 2 * n < UINT_RANGE)
    (ht : n ≤ times.length) (hs : n ≤ samples.length) (hd : n ≤ derivatives.length) :
    ∃ (st : Tables K V) (v : V),
      fillTables n times samples derivatives = .ok st ∧
      evaluate target_time n st = .ok v ∧
      HermiteInterpolateAndSolve target_time n times samples derivatives = .ok v ∧
      st.space_differences.rows = 2 * n ∧ st.space_differences.cols = 2 * n ∧
      st.time_differences.rows = 2 * n ∧
      (∀ a b, a < 2 * n → b ≤ a → st.space_differences.cell a b ≠ none) ∧
      (∀ a, a < 2 * n → st.time_differences.cell a 0 ≠ none) ∧
      st.space_differences.cell 0 1 = none ∧
      (∀ a b, a < b → st.space_differences.cell a b = none) := by
  obtain ⟨st, hfill, hF, hz⟩ := fillTables_spec n times samples derivatives h2n ht hs hd
  have hrun := HermiteInterpolateAndSolve_eq_ok target_time n times samples derivatives hn h2n
    ht hs hd
  have a1 : ¬ ¬ times.length ≥ n := fun h => h ht
  have a2 : ¬ ¬ samples.length ≥ n := fun h => h hs
  have heval : evaluate target_time n st =
      .ok (hermiteValue target_time n times samples derivatives) := by
    have h := hrun
    simp only [HermiteInterpolateAndSolve, a1, a2, if_false, hfill, bind_ok] at h
    exact h
  refine ⟨st, _, hfill, heval, hrun, hF.1, hF.2.1, hz.1, fun a b ha hb => ?_, fun a ha => ?_,
    ?_, fun a b hab => ?_⟩
  · rw [(hF.2.2 a b).1 ⟨ha, hb⟩]
    exact Option.some_ne_none _
  · rw [(hz.2.2 a 0).1 ⟨ha, rfl⟩]
    exact Option.some_ne_none _
  · exact (hF.2.2 0 1).2 (fun h => absurd h.2 (by decide))
  · exact (hF.2.2 a b).2 (fun h => absurd h.2 (by omega))

theorem hermite_accesses_safe_witness :
    ∃ (st : Tables ℚ ℚ) (v : ℚ),
      fillTables 3 [1, 2, 4] [(1 : ℚ), 0, 5] [2, 2, 7] = .ok st ∧
      evaluate (0 : ℚ) 3 st = .ok v ∧
      HermiteInterpolateAndSolve (0 : ℚ) 3 [1, 2, 4] [(1 : ℚ), 0, 5] [2, 2, 7] = .ok v ∧
      st.space_differences.rows = 2 * 3 ∧ st.space_differences.cols = 2 * 3 ∧
      st.time_differences.rows = 2 * 3 ∧
      (∀ a b, a < 2 * 3 → b ≤ a → st.space_differences.cell a b ≠ none) ∧
      (∀ a, a < 2 * 3 → st.time_differences.cell a 0 ≠ none) ∧
      st.space_differences.cell 0 1 = none ∧
      (∀ a b, a < b → st.space_differences.cell a b = none) :=
  hermite_accesses_safe (0 : ℚ) 3 [1, 2, 4] [(1 : ℚ), 0, 5] [2, 2, 7] (by decide) (by decide)
    (by simp) (by simp) (by simp)

/-- A call of `HermiteInterpolateAndSolve` that returns a value was made with at least one
sample point, with a table size that fits an `unsigned int` and with sequences of at least
`num_sample_points` entries. -/
theorem HermiteInterpolateAndSolve_ok_imp (target_time : K) (n : Nat) (times : List K)
    (samples derivatives : List V) (r : V)
    (h : HermiteInterpolateAndSolve target_time n times samples derivatives = .ok r) :
    1 ≤ n ∧ 2 * n < UINT_RANGE ∧ n ≤ times.length ∧ n ≤ samples.length ∧
      n ≤ derivatives.length := by
  unfold HermiteInterpolateAndSolve at h
  by_cases ht : times.length ≥ n
  · by_cases hs : samples.length ≥ n
    · simp only [ht, hs, not_true_eq_false, if_false] at h
      obtain ⟨u, -, h⟩ := bind_eq_ok _ _ _ h
      obtain ⟨u', -, h⟩ := bind_eq_ok _ _ _ h
      obtain ⟨st, hfill, heval⟩ := bind_eq_ok _ _ _ h
      obtain ⟨h2n, ht', hs', hd'⟩ := fillTables_ok_imp n times samples derivatives st hfill
      refine ⟨?_, h2n, ht', hs', hd'⟩
      by_contra hn
      obtain rfl : n = 0 := by omega
      obtain ⟨st', hfill', hF, -⟩ := fillTables_spec 0 times samples derivatives h2n ht' hs' hd'
      rw [hfill] at hfill'
      obtain rfl := Except.ok.inj hfill'
      unfold evaluate at heval
      obtain ⟨R, hread, -⟩ := bind_eq_ok _ _ _ heval
      unfold Mat.read at hread
      rw [hF.1] at hread
      simp at hread
    · simp only [ht, hs, not_true_eq_false, not_false_eq_true, if_true, if_false] at h
      obtain ⟨u, -, h⟩ := bind_eq_ok _ _ _ h
      obtain ⟨u', hthrow, -⟩ := bind_eq_ok _ _ _ h
      exact Except.noConfusion hthrow
  · simp only [ht, not_false_eq_true, if_true] at h
    obtain ⟨u, hthrow, -⟩ := bind_eq_ok _ _ _ h
    exact Except.noConfusion hthrow

theorem getD_zipWith_combine (c : K) (xs ys : List V) (i : Nat) (hx : i < xs.length)
    (hy : i < ys.length) :
    (List.zipWith (fun a b => c • a + b) xs ys).getD i 0 = c • xs.getD i 0 + ys.getD i 0 := by
  simp [List.getElem?_zipWith, List.getElem?_eq_getElem hx, List.getElem?_eq_getElem hy]

/-- The table values are linear in the samples and derivatives. -/
theorem ddAt_linear (n : Nat) (times : List K) (S1 D1 S2 D2 : List V) (c : K)
    (hS1 : n ≤ S1.length) (hD1 : n ≤ D1.length) (hS2 : n ≤ S2.length) (hD2 : n ≤ D2.length) :
    ∀ j i, i < 2 * n →
      ddAt times (List.zipWith (fun a b => c • a + b) S1 S2)
          (List.zipWith (fun a b => c • a + b) D1 D2) j i =
        c • ddAt times S1 D1 j i + ddAt times S2 D2 j i := by
  intro j
  induction j with
  | zero =>
    intro i hi
    simp only [ddAt]
    exact getD_zipWith_combine c S1 S2 (i / 2) (by omega) (by omega)
  | succ j ih =>
    intro i hi
    cases j with
    | zero =>
      simp only [Nat.zero_add, ddAt]
      rw [getD_zipWith_combine c D1 D2 (i / 2) (by omega) (by omega),
        getD_zipWith_combine c S1 S2 (i / 2) (by omega) (by omega),
        getD_zipWith_combine c S1 S2 ((i - 1) / 2) (by omega) (by omega)]
      split
      · rfl
      · simp only [smul_sub, smul_add, smul_comm c]
        abel
    | succ j =>
      simp only [ddAt]
      rw [ih i hi, ih (i - 1) (by omega)]
      simp only [smul_sub, smul_add, smul_comm c]
      abel

/-- The value accumulated by the evaluation loop is linear in the data. -/
theorem hornerAt_linear (n : Nat) (times : List K) (S1 D1 S2 D2 : List V) (c : K)
    (target_time : K)
    (hS1 : n ≤ S1.length) (hD1 : n ≤ D1.length) (hS2 : n ≤ S2.length) (hD2 : n ≤ D2.length) :
    ∀ ii (R1 R2 : V), ii + 1 ≤ n →
      hornerAt times (List.zipWith (fun a b => c • a + b) S1 S2)
          (List.zipWith (fun a b => c • a + b) D1 D2) target_time ii (c • R1 + R2) =
        c • hornerAt times S1 D1 target_time ii R1 + hornerAt times S2 D2 target_time ii R2 := by
  intro ii
  induction ii with
  | zero => intro R1 R2 _; rfl
  | succ ii ih =>
    intro R1 R2 hii
    simp only [hornerAt]
    rw [ddAt_linear n times S1 D1 S2 D2 c hS1 hD1 hS2 hD2 _ _ (by omega : 2 * (ii + 1) < 2 * n),
      ddAt_linear n times S1 D1 S2 D2 c hS1 hD1 hS2 hD2 _ _ (by omega : 2 * ii + 1 < 2 * n),
      ← ih _ _ (by omega)]
    congr 1
    simp only [smul_add, smul_comm c]
    abel

/-- C20: for fixed target time, number of sample points and times, the routine is linear in
the data: when it returns `r1` on `(S1, D1)` and `r2` on `(S2, D2)`, it returns
`c * r1 + r2` on `(c * S1 + S2, c * D1 + D2)`. -/
theorem hermite_linear_in_data (target_time : K) (n : Nat) (times : List K)
    (S1 D1 S2 D2 : List V) (c : K) (r1 r2 : V)
    (h1 : HermiteInterpolateAndSolve target_time n times S1 D1 = .ok r1)
    (h2 : HermiteInterpolateAndSolve target_time n times S2 D2 = .ok r2) :
    HermiteInterpolateAndSolve target_time n times
        (List.zipWith (fun a b => c • a + b) S1 S2)
        (List.zipWith (fun a b => c • a + b) D1 D2) = .ok (c • r1 + r2) := by
  obtain ⟨hn, h2n, ht, hS1, hD1⟩ :=
    HermiteInterpolateAndSolve_ok_imp target_time n times S1 D1 r1 h1
  obtain ⟨-, -, -, hS2, hD2⟩ := HermiteInterpolateAndSolve_ok_imp target_time n times S2 D2 r2 h2
  rw [HermiteInterpolateAndSolve_eq_ok target_time n times S1 D1 hn h2n ht hS1 hD1] at h1
  rw [HermiteInterpolateAndSolve_eq_ok target_time n times S2 D2 hn h2n ht hS2 hD2] at h2
  obtain rfl := Except.ok.inj h1
  obtain rfl := Except.ok.inj h2
  rw [HermiteInterpolateAndSolve_eq_ok target_time n times _ _ hn h2n ht
    (by rw [List.length_zipWith]; omega) (by rw [List.length_zipWith]; omega)]
  congr 1
  simp only [hermiteValue]
  rw [ddAt_linear n times S1 D1 S2 D2 c hS1 hD1 hS2 hD2 _ _ (by omega : 2 * n - 1 < 2 * n),
    ddAt_linear n times S1 D1 S2 D2 c hS1 hD1 hS2 hD2 _ _ (by omega : 0 < 2 * n),
    hornerAt_linear n times S1 D1 S2 D2 c target_time hS1 hD1 hS2 hD2 _ _ _ (by omega)]
  simp only [smul_add, smul_comm c]
  abel

theorem hermite_linear_in_data_witness :
    HermiteInterpolateAndSolve (2 : ℚ) 2 [0, 1] [(0 : ℚ), 1] [0, 3] = .ok 12 ∧
    HermiteInterpolateAndSolve (2 : ℚ) 2 [0, 1] [(1 : ℚ), 1] [0, 0] = .ok 1 ∧
    HermiteInterpolateAndSolve (2 : ℚ) 2 [0, 1]
        (List.zipWith (fun a b => (5 : ℚ) • a + b) [(0 : ℚ), 1] [1, 1])
        (List.zipWith (fun a b => (5 : ℚ) • a + b) [(0 : ℚ), 3] [0, 0]) =
      .ok ((5 : ℚ) • (12 : ℚ) + 1) := by
  have h1 : HermiteInterpolateAndSolve (2 : ℚ) 2 [0, 1] [(0 : ℚ), 1] [0, 3] = .ok 12 := by
    rw [HermiteInterpolateAndSolve_eq_ok _ _ _ _ _ (by decide) (by decide) (by simp) (by simp)
      (by simp)]
    simp [hermiteValue, hornerAt, ddAt, zAt]
    norm_num
  have h2 : HermiteInterpolateAndSolve (2 : ℚ) 2 [0, 1] [(1 : ℚ), 1] [0, 0] = .ok 1 := by
    rw [HermiteInterpolateAndSolve_eq_ok _ _ _ _ _ (by decide) (by decide) (by simp) (by simp)
      (by simp)]
    simp [hermiteValue, hornerAt, ddAt, zAt]
  exact ⟨h1, h2, hermite_linear_in_data (2 : ℚ) 2 [0, 1] [0, 1] [0, 3] [1, 1] [0, 0] 5 12 1
    h1 h2⟩

end TableClaims

end Bertini
